import Mathlib

/-!
Shallow embedding of the txdemo ledger engine (src/core.rs,
src/core/fixed_decimal.rs, src/account_service.rs).

Machine integers are modelled as `Nat` with explicit bound checks against
`U64_MAX` wherever the Rust code uses checked `u64` arithmetic.  Monetary
amounts (`UnsignedAssetCount`, backed by `FixedDecimal<u64, 4>`) are the raw
count of 1e-4 fractions.  The two `HashMap`s of `MemAccountService` are
modelled as association lists whose operations mirror the `entry` API used by
the source (`alFind` returns the first binding, `alInsert` replaces it).
Fallible code returns `Option`/`Except`; since the embedding is functional,
each `submit_*` operation returns the result together with the new service
state.
-/

deriving instance DecidableEq for Except

namespace Txdemo

/-- `u64::MAX`: the backing integer bound of `FixedDecimal<u64, 4>`. -/
def U64_MAX : Nat := 18446744073709551615

/-- `u64::checked_add` on fraction counts (core/fixed_decimal.rs `checked_add`). -/
def checked_add (a b : Nat) : Option Nat :=
  if a + b ≤ U64_MAX then some (a + b) else none

/-- `u64::checked_sub` on fraction counts (core/fixed_decimal.rs `checked_sub`). -/
def checked_sub (a b : Nat) : Option Nat :=
  if b ≤ a then some (a - b) else none

/-- `u64::checked_mul`, used by the fixed-decimal parser. -/
def checked_mul (a b : Nat) : Option Nat :=
  if a * b ≤ U64_MAX then some (a * b) else none

/-- core.rs `TransactionMeta`: `(id, client, amount)`.
Ids are opaque; we model `TransactionId`/`ClientId` as `Nat`. -/
structure TransactionMeta where
  id : Nat
  client : Nat
  amount : Nat
deriving DecidableEq

/-- core.rs `Transaction`: a deposit or a withdrawal. -/
inductive Transaction where
  | Deposit (meta : TransactionMeta)
  | Withdrawal (meta : TransactionMeta)
deriving DecidableEq

/-- core.rs `Transaction::meta`. -/
def Transaction.meta : Transaction → TransactionMeta
  | Transaction.Deposit m => m
  | Transaction.Withdrawal m => m

/-- core.rs `Transaction::id`. -/
def Transaction.id (t : Transaction) : Nat := t.meta.id

/-- core.rs `Transaction::client`. -/
def Transaction.client (t : Transaction) : Nat := t.meta.client

/-- core.rs `Transaction::amount`. -/
def Transaction.amount (t : Transaction) : Nat := t.meta.amount

/-- account_service.rs `TransactionState`. -/
inductive TransactionState where
  | Valid
  | Disputed
  | Rejected
deriving DecidableEq

/-- account_service.rs `TransactionWithState`. -/
structure TransactionWithState where
  tx : Transaction
  state : TransactionState
deriving DecidableEq

/-- account_service.rs `TransactionWithState::valid`. -/
def TransactionWithState.valid (tx : Transaction) : TransactionWithState :=
  { tx := tx, state := TransactionState.Valid }

/-- account_service.rs `TransactionWithState::rejected`. -/
def TransactionWithState.rejected (tx : Transaction) : TransactionWithState :=
  { tx := tx, state := TransactionState.Rejected }

/-- core.rs `AccountBalance`: the available/held split. -/
structure AccountBalance where
  available : Nat
  held : Nat
deriving DecidableEq

namespace AccountBalance

/-- core.rs `AccountBalance::new`. -/
def new : AccountBalance := { available := 0, held := 0 }

/-- core.rs `AccountBalance::total`. -/
def total (b : AccountBalance) : Nat := b.available + b.held

/-- core.rs `AccountBalance::update`: commit both fields after checking that
the total `new_available + new_held` is representable. -/
def update (new_available new_held : Nat) : Option AccountBalance :=
  if (checked_add new_available new_held).isSome then
    some { available := new_available, held := new_held }
  else
    none

/-- core.rs `AccountBalance::inc_available`. -/
def inc_available (b : AccountBalance) (amount : Nat) : Option AccountBalance :=
  match checked_add b.available amount with
  | none => none
  | some new_available => update new_available b.held

/-- core.rs `AccountBalance::dec_available`. -/
def dec_available (b : AccountBalance) (amount : Nat) : Option AccountBalance :=
  match checked_sub b.available amount with
  | none => none
  | some new_available => update new_available b.held

/-- core.rs `AccountBalance::move_available_to_held`. -/
def move_available_to_held (b : AccountBalance) (amount : Nat) : Option AccountBalance :=
  match checked_sub b.available amount with
  | none => none
  | some new_available =>
    match checked_add b.held amount with
    | none => none
    | some new_held => update new_available new_held

/-- core.rs `AccountBalance::move_held_to_available`. -/
def move_held_to_available (b : AccountBalance) (amount : Nat) : Option AccountBalance :=
  match checked_add b.available amount with
  | none => none
  | some new_available =>
    match checked_sub b.held amount with
    | none => none
    | some new_held => update new_available new_held

end AccountBalance

/-- core.rs `Account`: the snapshot row exposed by `get_all_accounts`. -/
structure Account where
  client : Nat
  balance : AccountBalance
  locked : Bool
deriving DecidableEq

/-- account_service.rs `MemAccount`. -/
structure MemAccount where
  id : Nat
  locked : Bool
  balance : AccountBalance
deriving DecidableEq

/-- account_service.rs `MemAccount::new`: fresh unlocked account with an
empty balance. -/
def MemAccount.new (id : Nat) : MemAccount :=
  { id := id, locked := false, balance := AccountBalance.new }

/-- account_service.rs `WithdrawalDisputePolicy`. -/
inductive WithdrawalDisputePolicy where
  | Deny
  | IfMoreAvailableThanDisputed
deriving DecidableEq

/-- account_service.rs `DepositError`. -/
inductive DepositError where
  | TransactionIdConflict
  | Locked
  | BalanceUpdateError
deriving DecidableEq

/-- account_service.rs `WithdrawalError`. -/
inductive WithdrawalError where
  | TransactionIdConflict
  | Locked
  | BalanceUpdateError
  | InsufficientAssets
deriving DecidableEq

/-- account_service.rs `DisputeError`. -/
inductive DisputeError where
  | NotFound (tx : Nat)
  | InvalidClaimant (owner claimant : Nat)
  | AlreadyRejected (tx : Nat)
  | Locked
  | BalanceUpdateError
  | WithdrawalDisputeDenied
  | InsufficientAssets
deriving DecidableEq

/-- account_service.rs `ResolveError`. -/
inductive ResolveError where
  | NotFound (tx : Nat)
  | InvalidClaimant (owner claimant : Nat)
  | AlreadyRejected (tx : Nat)
  | Locked
  | BalanceUpdateError
deriving DecidableEq

/-- account_service.rs `ChargebackError`. -/
inductive ChargebackError where
  | NotFound (tx : Nat)
  | InvalidClaimant (owner claimant : Nat)
  | NonDisputed (tx : Nat)
  | Locked
  | BalanceUpdateError
deriving DecidableEq

/-- account_service.rs `SubmitError`. -/
inductive SubmitError where
  | Deposit (e : DepositError)
  | Withdrawal (e : WithdrawalError)
  | Dispute (e : DisputeError)
  | Resolve (e : ResolveError)
  | Chargeback (e : ChargebackError)
deriving DecidableEq

namespace cmd

/-- core.rs `cmd::Dispute`. -/
structure Dispute where
  client : Nat
  tx : Nat
deriving DecidableEq

/-- core.rs `cmd::Resolve`. -/
structure Resolve where
  client : Nat
  tx : Nat
deriving DecidableEq

/-- core.rs `cmd::Chargeback`. -/
structure Chargeback where
  client : Nat
  tx : Nat
deriving DecidableEq

end cmd

/-- core.rs `Command`: `cmd::Deposit` and `cmd::Withdrawal` are newtypes over
`TransactionMeta`, so the payload is carried directly. -/
inductive Command where
  | Deposit (meta : TransactionMeta)
  | Withdrawal (meta : TransactionMeta)
  | Dispute (c : cmd.Dispute)
  | Resolve (c : cmd.Resolve)
  | Chargeback (c : cmd.Chargeback)
deriving DecidableEq

/-- Association-list lookup: first binding for the key (HashMap `get`). -/
def alFind {α : Type} : List (Nat × α) → Nat → Option α
  | [], _ => none
  | (k, v) :: rest, key => if k = key then some v else alFind rest key

/-- Association-list insert-or-replace for the key (HashMap `insert` /
`entry().or_insert`): replaces the first binding, appends if absent. -/
def alInsert {α : Type} : List (Nat × α) → Nat → α → List (Nat × α)
  | [], key, v => [(key, v)]
  | (k, w) :: rest, key, v =>
    if k = key then (key, v) :: rest else (k, w) :: alInsert rest key v

/-- account_service.rs `MemAccountService`. -/
structure MemAccountService where
  withdrawal_dispute_policy : WithdrawalDisputePolicy
  transactions : List (Nat × TransactionWithState)
  accounts : List (Nat × MemAccount)
deriving DecidableEq

/-- account_service.rs `MemAccountService::new`. -/
def MemAccountService.new (p : WithdrawalDisputePolicy) : MemAccountService :=
  { withdrawal_dispute_policy := p, transactions := [], accounts := [] }

/-- account_service.rs `upsert_account`: get-or-create the account for the
client.  Returns the account together with the (possibly extended) map,
mirroring `entry(client).or_insert_with(|| MemAccount::new(client))`. -/
def upsert_account (accounts : List (Nat × MemAccount)) (client : Nat) :
    MemAccount × List (Nat × MemAccount) :=
  match alFind accounts client with
  | some a => (a, accounts)
  | none => (MemAccount.new client, alInsert accounts client (MemAccount.new client))

/-- account_service.rs `MemAccountService::submit_deposit`, with
`upsert_tx` inlined at its only deposit instantiation. -/
def submit_deposit (s : MemAccountService) (c : TransactionMeta) :
    Except DepositError Unit × MemAccountService :=
  let tx := Transaction.Deposit c
  let ar := upsert_account s.accounts c.client
  let account := ar.1
  let accounts := ar.2
  match alFind s.transactions c.id with
  | some existing =>
    if existing.tx = tx then
      (Except.ok (), { s with accounts := accounts })
    else
      (Except.error DepositError.TransactionIdConflict, { s with accounts := accounts })
  | none =>
    if account.locked then
      (Except.error DepositError.Locked,
        { s with accounts := accounts,
                 transactions :=
                   alInsert s.transactions c.id (TransactionWithState.rejected tx) })
    else
      match AccountBalance.inc_available account.balance c.amount with
      | none =>
        (Except.error DepositError.BalanceUpdateError,
          { s with accounts := accounts,
                   transactions :=
                     alInsert s.transactions c.id (TransactionWithState.rejected tx) })
      | some b =>
        (Except.ok (),
          { s with accounts := alInsert accounts c.client { account with balance := b },
                   transactions :=
                     alInsert s.transactions c.id (TransactionWithState.valid tx) })

/-- account_service.rs `MemAccountService::submit_withdrawal`, with
`upsert_tx` inlined at its only withdrawal instantiation. -/
def submit_withdrawal (s : MemAccountService) (c : TransactionMeta) :
    Except WithdrawalError Unit × MemAccountService :=
  let tx := Transaction.Withdrawal c
  let ar := upsert_account s.accounts c.client
  let account := ar.1
  let accounts := ar.2
  match alFind s.transactions c.id with
  | some existing =>
    if existing.tx = tx then
      (Except.ok (), { s with accounts := accounts })
    else
      (Except.error WithdrawalError.TransactionIdConflict, { s with accounts := accounts })
  | none =>
    if account.locked then
      (Except.error WithdrawalError.Locked,
        { s with accounts := accounts,
                 transactions :=
                   alInsert s.transactions c.id (TransactionWithState.rejected tx) })
    else if account.balance.available < c.amount then
      (Except.error WithdrawalError.InsufficientAssets,
        { s with accounts := accounts,
                 transactions :=
                   alInsert s.transactions c.id (TransactionWithState.rejected tx) })
    else
      match AccountBalance.dec_available account.balance c.amount with
      | none =>
        (Except.error WithdrawalError.BalanceUpdateError,
          { s with accounts := accounts,
                   transactions :=
                     alInsert s.transactions c.id (TransactionWithState.rejected tx) })
      | some b =>
        (Except.ok (),
          { s with accounts := alInsert accounts c.client { account with balance := b },
                   transactions :=
                     alInsert s.transactions c.id (TransactionWithState.valid tx) })

/-- account_service.rs `MemAccountService::submit_dispute`. -/
def submit_dispute (s : MemAccountService) (c : cmd.Dispute) :
    Except DisputeError Unit × MemAccountService :=
  match alFind s.transactions c.tx with
  | none => (Except.error (DisputeError.NotFound c.tx), s)
  | some txws =>
    let ar := upsert_account s.accounts txws.tx.client
    let account := ar.1
    let s1 : MemAccountService := { s with accounts := ar.2 }
    if c.client ≠ account.id then
      (Except.error (DisputeError.InvalidClaimant account.id c.client), s1)
    else if account.locked then
      (Except.error DisputeError.Locked, s1)
    else
      match txws.state with
      | TransactionState.Rejected => (Except.error (DisputeError.AlreadyRejected c.tx), s1)
      | TransactionState.Disputed => (Except.ok (), s1)
      | TransactionState.Valid =>
        let disputed_amount := txws.tx.amount
        let has_more_available_than_disputed : Bool :=
          decide (disputed_amount ≤ account.balance.available)
        let check : Except DisputeError Unit :=
          match txws.tx with
          | Transaction.Deposit _ =>
            if has_more_available_than_disputed then Except.ok ()
            else Except.error DisputeError.InsufficientAssets
          | Transaction.Withdrawal _ =>
            match s.withdrawal_dispute_policy with
            | WithdrawalDisputePolicy.Deny =>
              Except.error DisputeError.WithdrawalDisputeDenied
            | WithdrawalDisputePolicy.IfMoreAvailableThanDisputed =>
              if has_more_available_than_disputed then Except.ok ()
              else Except.error DisputeError.InsufficientAssets
        match check with
        | Except.error e => (Except.error e, s1)
        | Except.ok _ =>
          match AccountBalance.move_available_to_held account.balance disputed_amount with
          | none => (Except.error DisputeError.BalanceUpdateError, s1)
          | some b =>
            (Except.ok (),
              { s1 with
                  accounts :=
                    alInsert s1.accounts txws.tx.client { account with balance := b },
                  transactions :=
                    alInsert s1.transactions c.tx
                      { txws with state := TransactionState.Disputed } })

/-- account_service.rs `MemAccountService::submit_resolve`. -/
def submit_resolve (s : MemAccountService) (c : cmd.Resolve) :
    Except ResolveError Unit × MemAccountService :=
  match alFind s.transactions c.tx with
  | none => (Except.error (ResolveError.NotFound c.tx), s)
  | some txws =>
    let ar := upsert_account s.accounts txws.tx.client
    let account := ar.1
    let s1 : MemAccountService := { s with accounts := ar.2 }
    if c.client ≠ account.id then
      (Except.error (ResolveError.InvalidClaimant account.id c.client), s1)
    else if account.locked then
      (Except.error ResolveError.Locked, s1)
    else
      match txws.state with
      | TransactionState.Rejected => (Except.error (ResolveError.AlreadyRejected c.tx), s1)
      | TransactionState.Valid => (Except.ok (), s1)
      | TransactionState.Disputed =>
        let disputed_amount := txws.tx.amount
        match AccountBalance.move_held_to_available account.balance disputed_amount with
        | none => (Except.error ResolveError.BalanceUpdateError, s1)
        | some b =>
          (Except.ok (),
            { s1 with
                accounts :=
                  alInsert s1.accounts txws.tx.client { account with balance := b },
                transactions :=
                  alInsert s1.transactions c.tx
                    { txws with state := TransactionState.Valid } })

/-- account_service.rs `MemAccountService::submit_chargeback`.  For a
disputed deposit the amount is removed from held; for a disputed withdrawal
the held amount is moved back to available and the withdrawn amount is
additionally refunded (two `checked_add`s on available in the source). -/
def submit_chargeback (s : MemAccountService) (c : cmd.Chargeback) :
    Except ChargebackError Unit × MemAccountService :=
  match alFind s.transactions c.tx with
  | none => (Except.error (ChargebackError.NotFound c.tx), s)
  | some txws =>
    let ar := upsert_account s.accounts txws.tx.client
    let account := ar.1
    let s1 : MemAccountService := { s with accounts := ar.2 }
    if c.client ≠ account.id then
      (Except.error (ChargebackError.InvalidClaimant account.id c.client), s1)
    else if account.locked then
      (Except.error ChargebackError.Locked, s1)
    else
      match txws.state with
      | TransactionState.Rejected => (Except.ok (), s1)
      | TransactionState.Valid => (Except.error (ChargebackError.NonDisputed c.tx), s1)
      | TransactionState.Disputed =>
        let disputed_amount := txws.tx.amount
        let pair : Except ChargebackError (Nat × Nat) :=
          match txws.tx with
          | Transaction.Deposit _ =>
            match checked_sub account.balance.held disputed_amount with
            | none => Except.error ChargebackError.BalanceUpdateError
            | some new_held => Except.ok (account.balance.available, new_held)
          | Transaction.Withdrawal _ =>
            match checked_sub account.balance.held disputed_amount with
            | none => Except.error ChargebackError.BalanceUpdateError
            | some new_held =>
              match checked_add account.balance.available disputed_amount with
              | none => Except.error ChargebackError.BalanceUpdateError
              | some new_available1 =>
                match checked_add new_available1 disputed_amount with
                | none => Except.error ChargebackError.BalanceUpdateError
                | some new_available => Except.ok (new_available, new_held)
        match pair with
        | Except.error e => (Except.error e, s1)
        | Except.ok p =>
          match AccountBalance.update p.1 p.2 with
          | none => (Except.error ChargebackError.BalanceUpdateError, s1)
          | some b =>
            (Except.ok (),
              { s1 with
                  accounts :=
                    alInsert s1.accounts txws.tx.client
                      { account with balance := b, locked := true },
                  transactions :=
                    alInsert s1.transactions c.tx
                      { txws with state := TransactionState.Rejected } })

/-- account_service.rs `MemAccountService::submit`: dispatch on the command
kind, wrapping the per-command error into `SubmitError`. -/
def MemAccountService.submit (s : MemAccountService) (c : Command) :
    Except SubmitError Unit × MemAccountService :=
  match c with
  | Command.Deposit m =>
    match submit_deposit s m with
    | (Except.ok _, s2) => (Except.ok (), s2)
    | (Except.error e, s2) => (Except.error (SubmitError.Deposit e), s2)
  | Command.Withdrawal m =>
    match submit_withdrawal s m with
    | (Except.ok _, s2) => (Except.ok (), s2)
    | (Except.error e, s2) => (Except.error (SubmitError.Withdrawal e), s2)
  | Command.Dispute c =>
    match submit_dispute s c with
    | (Except.ok _, s2) => (Except.ok (), s2)
    | (Except.error e, s2) => (Except.error (SubmitError.Dispute e), s2)
  | Command.Resolve c =>
    match submit_resolve s c with
    | (Except.ok _, s2) => (Except.ok (), s2)
    | (Except.error e, s2) => (Except.error (SubmitError.Resolve e), s2)
  | Command.Chargeback c =>
    match submit_chargeback s c with
    | (Except.ok _, s2) => (Except.ok (), s2)
    | (Except.error e, s2) => (Except.error (SubmitError.Chargeback e), s2)

/-- One replay step: apply a command and keep the resulting state
(the caller decides what to do with the per-command result). -/
def stepCmd (s : MemAccountService) (c : Command) : MemAccountService :=
  (s.submit c).2

/-- Replay a whole command stream against a fresh engine with the given
withdrawal-dispute policy. -/
def applyAll (p : WithdrawalDisputePolicy) (cmds : List Command) : MemAccountService :=
  cmds.foldl stepCmd (MemAccountService.new p)

/-- account_service.rs `MemAccountService::get_all_accounts`: snapshot of
every account ever created. -/
def get_all_accounts (s : MemAccountService) : List Account :=
  s.accounts.map (fun p => { client := p.2.id, balance := p.2.balance, locked := p.2.locked })

/-- Available balance of a client's account, `0` if the account does not
exist yet (fresh accounts start at `(0, 0)`). -/
def availOf (s : MemAccountService) (client : Nat) : Nat :=
  match alFind s.accounts client with
  | some a => a.balance.available
  | none => 0

/-- Held balance of a client's account, `0` if absent. -/
def heldOf (s : MemAccountService) (client : Nat) : Nat :=
  match alFind s.accounts client with
  | some a => a.balance.held
  | none => 0

/-- Lock flag of a client's account, `false` if absent. -/
def lockedOf (s : MemAccountService) (client : Nat) : Bool :=
  match alFind s.accounts client with
  | some a => a.locked
  | none => false

/-! ### Fixed decimal text I/O (core/fixed_decimal.rs, instantiated at `FixedDecimal<u64, 4>`) -/

/-- The fractional-digit count of `UnsignedAssetCount = FixedDecimal<u64, 4>`. -/
def PRECISION : Nat := 4

/-- core/fixed_decimal.rs `ParseFixedDecimalError`. -/
inductive ParseFixedDecimalError where
  | TooLarge
  | TooMuchFractionalDigits (precision : Nat)
  | InvalidChar (pos : Nat)
  | NoDigits
deriving DecidableEq

/-- The byte loop of core/fixed_decimal.rs `lex_digits`, for `T = u64`
(`signum = 1`) and `PRECISION = 4`.  State: remaining input, current byte
position, accumulated fraction count, whether a digit was seen, and
`decimal_digits` (`none` before the separator). -/
def lexDigitsLoop : List Char → Nat → Nat → Bool → Option Nat →
    Except ParseFixedDecimalError (Nat × Bool × Option Nat)
  | [], _, fractions, has_digit, decimal_digits =>
    Except.ok (fractions, has_digit, decimal_digits)
  | ch :: rest, pos, fractions, has_digit, decimal_digits =>
    if 48 ≤ ch.toNat ∧ ch.toNat ≤ 57 then
      match (match decimal_digits with
             | some dd =>
               if dd = PRECISION then none else some (some (dd + 1))
             | none => some (none : Option Nat)) with
      | none => Except.error (ParseFixedDecimalError.TooMuchFractionalDigits PRECISION)
      | some dd2 =>
        match checked_mul 1 (ch.toNat - 48) with
        | none => Except.error ParseFixedDecimalError.TooLarge
        | some digit =>
          match checked_mul fractions 10 with
          | none => Except.error ParseFixedDecimalError.TooLarge
          | some f10 =>
            match checked_add f10 digit with
            | none => Except.error ParseFixedDecimalError.TooLarge
            | some f2 => lexDigitsLoop rest (pos + 1) f2 true dd2
    else if ch = '.' then
      match decimal_digits with
      | none => lexDigitsLoop rest (pos + 1) fractions has_digit (some 0)
      | some _ => Except.error (ParseFixedDecimalError.InvalidChar pos)
    else Except.error (ParseFixedDecimalError.InvalidChar pos)

/-- The trailing zero-fill of core/fixed_decimal.rs `lex_digits`: shift the
accumulated value until the expected precision is reached. -/
def lexPad (fractions : Nat) (decimal_digits : Nat) : Except ParseFixedDecimalError Nat :=
  if decimal_digits < PRECISION then
    match checked_mul fractions 10 with
    | none => Except.error ParseFixedDecimalError.TooLarge
    | some f2 => lexPad f2 (decimal_digits + 1)
  else Except.ok fractions
termination_by PRECISION - decimal_digits
decreasing_by simp_wf; omega

/-- core/fixed_decimal.rs `lex_digits` for `FixedDecimal<u64, 4>`. -/
def lex_digits (input : List Char) : Except ParseFixedDecimalError Nat :=
  match lexDigitsLoop input 0 0 false none with
  | Except.error e => Except.error e
  | Except.ok r =>
    if r.2.1 = false then Except.error ParseFixedDecimalError.NoDigits
    else lexPad r.1 (r.2.2.getD 0)

/-- core/fixed_decimal.rs `FromStr for FixedDecimal<u64, 4>`: `u64` has no
`-1`, so the input goes straight to `lex_digits` with `signum = 1`. -/
def fdParse (input : List Char) : Except ParseFixedDecimalError Nat :=
  lex_digits input

/-- The ASCII character of a decimal digit. -/
def digitChar (d : Nat) : Char := Char.ofNat (48 + d)

/-- Decimal rendering of a `u64` (Rust `Display for u64`): most significant
digit first, `"0"` for zero, no leading zeros otherwise. -/
def natDigitsChars (n : Nat) : List Char :=
  if n = 0 then [digitChar 0] else ((Nat.digits 10 n).reverse.map digitChar)

/-- The `{:0>width$}` padding used for the fractional part. -/
def padZerosLeft (l : List Char) (width : Nat) : List Char :=
  List.replicate (width - l.length) (digitChar 0) ++ l

/-- core/fixed_decimal.rs `Display for FixedDecimal<u64, 4>`: value is
non-negative, `fractions_per_unit = 10^4`, so the output is
`"{int}.{frac:0>4}"` with `(int, frac) = div_rem fractions 10000`. -/
def fdFormat (x : Nat) : List Char :=
  natDigitsChars (x / 10000) ++ '.' :: padZerosLeft (natDigitsChars (x % 10000)) PRECISION

/-- Numeric value accumulated by the parser over a run of ASCII digit
characters (most significant first), starting from `a`: one step is exactly
the digit branch of `lexDigitsLoop` (`fractions * 10 + digit`). -/
def foldAcc (a : Nat) (l : List Char) : Nat :=
  l.foldl (fun acc c => acc * 10 + (c.toNat - 48)) a

/-! ### Replay invariant -/

/-- Contribution of one transaction record to a client's held assets: its
amount if it is currently disputed and owned by the client. -/
def txContrib (client : Nat) (t : TransactionWithState) : Nat :=
  if t.tx.client = client ∧ t.state = TransactionState.Disputed then t.tx.amount else 0

/-- Sum of the currently disputed amounts owned by a client. -/
def disputedSum (txs : List (Nat × TransactionWithState)) (client : Nat) : Nat :=
  (txs.map (fun p => txContrib client p.2)).sum

/-- Structural invariant of the in-memory service, maintained by every
command (documented on the two `HashMap`s in account_service.rs plus the
balance discipline of core.rs). -/
structure Inv (s : MemAccountService) : Prop where
  tx_nodup : (s.transactions.map Prod.fst).Nodup
  acc_nodup : (s.accounts.map Prod.fst).Nodup
  tx_key : ∀ p ∈ s.transactions, (p : Nat × TransactionWithState).2.tx.id = p.1
  acc_key : ∀ p ∈ s.accounts, (p : Nat × MemAccount).2.id = p.1
  tx_owner : ∀ p ∈ s.transactions,
    (alFind s.accounts ((p : Nat × TransactionWithState).2.tx.client)).isSome
  bal_ok : ∀ p ∈ s.accounts,
    (p : Nat × MemAccount).2.balance.available + p.2.balance.held ≤ U64_MAX
  held_sum : ∀ p ∈ s.accounts,
    (p : Nat × MemAccount).2.balance.held = disputedSum s.transactions p.1

/-! ### Association list lemmas -/

theorem alFind_alInsert_self {α : Type} (m : List (Nat × α)) (k : Nat) (v : α) :
    alFind (alInsert m k v) k = some v := by
  induction m with
  | nil => simp [alInsert, alFind]
  | cons hd tl ih =>
    by_cases h : hd.1 = k
    · simp [alInsert, h, alFind]
    · simp [alInsert, h, alFind, ih]

theorem alFind_alInsert_ne {α : Type} (m : List (Nat × α)) (k k2 : Nat) (v : α)
    (h : k ≠ k2) : alFind (alInsert m k v) k2 = alFind m k2 := by
  induction m with
  | nil => simp [alInsert, alFind, h]
  | cons hd tl ih =>
    by_cases hh : hd.1 = k
    · simp [alInsert, hh, alFind, h]
    · simp only [alInsert, hh, if_neg hh]
      by_cases h2 : hd.1 = k2
      · simp [alFind, h2]
      · simp [alFind, h2, ih]

theorem alFind_mem {α : Type} {m : List (Nat × α)} {k : Nat} {v : α}
    (h : alFind m k = some v) : (k, v) ∈ m := by
  induction m with
  | nil => simp [alFind] at h
  | cons hd tl ih =>
    obtain ⟨k1, v1⟩ := hd
    by_cases hh : k1 = k
    · simp only [alFind, if_pos hh] at h
      cases h
      subst hh
      exact List.mem_cons_self _ _
    · simp only [alFind, if_neg hh] at h
      exact List.mem_cons_of_mem _ (ih h)

theorem mem_alInsert {α : Type} {m : List (Nat × α)} {k : Nat} {v : α} {p : Nat × α}
    (h : p ∈ alInsert m k v) : p = (k, v) ∨ p ∈ m := by
  induction m with
  | nil => simp [alInsert] at h; simp [h]
  | cons hd tl ih =>
    by_cases hh : hd.1 = k
    · simp only [alInsert, hh, if_pos rfl] at h
      rcases List.mem_cons.mp h with h1 | h1
      · exact Or.inl h1
      · exact Or.inr (List.mem_cons_of_mem _ h1)
    · simp only [alInsert, if_neg hh] at h
      rcases List.mem_cons.mp h with h1 | h1
      · exact Or.inr (h1 ▸ List.mem_cons_self hd tl)
      · rcases ih h1 with h2 | h2
        · exact Or.inl h2
        · exact Or.inr (List.mem_cons_of_mem _ h2)

theorem mem_alInsert_nodup {α : Type} {m : List (Nat × α)} {k : Nat} {v : α} {p : Nat × α}
    (hnd : (m.map Prod.fst).Nodup) (h : p ∈ alInsert m k v) :
    p = (k, v) ∨ (p ∈ m ∧ p.1 ≠ k) := by
  induction m with
  | nil => simp [alInsert] at h; simp [h]
  | cons hd tl ih =>
    simp only [List.map_cons, List.nodup_cons] at hnd
    by_cases hh : hd.1 = k
    · simp only [alInsert, hh, if_pos rfl] at h
      rcases List.mem_cons.mp h with h1 | h1
      · exact Or.inl h1
      · refine Or.inr ⟨List.mem_cons_of_mem _ h1, ?_⟩
        intro hk
        exact hnd.1 (hh ▸ hk ▸ List.mem_map_of_mem Prod.fst h1)
    · simp only [alInsert, if_neg hh] at h
      rcases List.mem_cons.mp h with h1 | h1
      · exact Or.inr ⟨h1 ▸ List.mem_cons_self hd tl, by rw [h1]; exact hh⟩
      · rcases ih hnd.2 h1 with h2 | h2
        · exact Or.inl h2
        · exact Or.inr ⟨List.mem_cons_of_mem _ h2.1, h2.2⟩

theorem keys_alInsert {α : Type} (m : List (Nat × α)) (k : Nat) (v : α) :
    (alInsert m k v).map Prod.fst = m.map Prod.fst ∨
    (alInsert m k v).map Prod.fst = m.map Prod.fst ++ [k] := by
  induction m with
  | nil => simp [alInsert]
  | cons hd tl ih =>
    by_cases hh : hd.1 = k
    · left; simp [alInsert, hh]
    · rcases ih with h1 | h1
      · left; simp [alInsert, if_neg hh, h1]
      · right; simp [alInsert, if_neg hh, h1]

theorem nodup_alInsert {α : Type} {m : List (Nat × α)} (k : Nat) (v : α)
    (hnd : (m.map Prod.fst).Nodup) :
    ((alInsert m k v).map Prod.fst).Nodup := by
  induction m with
  | nil => simp [alInsert]
  | cons hd tl ih =>
    obtain ⟨k1, v1⟩ := hd
    simp only [List.map_cons, List.nodup_cons] at hnd
    by_cases hh : k1 = k
    · simp only [alInsert, if_pos hh, List.map_cons, List.nodup_cons]
      exact ⟨hh ▸ hnd.1, hnd.2⟩
    · simp only [alInsert, if_neg hh, List.map_cons, List.nodup_cons]
      refine ⟨?_, ih hnd.2⟩
      intro hmem
      rcases keys_alInsert tl k v with he | he
      · exact hnd.1 (he ▸ hmem)
      · rw [he, List.mem_append] at hmem
        rcases hmem with hmem | hmem
        · exact hnd.1 hmem
        · simp only [List.mem_singleton] at hmem
          exact hh hmem

theorem alFind_isSome_alInsert {α : Type} (m : List (Nat × α)) (k k2 : Nat) (v : α)
    (h : (alFind m k2).isSome) : (alFind (alInsert m k v) k2).isSome := by
  by_cases hk : k = k2
  · rw [hk, alFind_alInsert_self]; simp
  · rw [alFind_alInsert_ne m k k2 v hk]; exact h

theorem alFind_eq_none_iff {α : Type} (m : List (Nat × α)) (k : Nat) :
    alFind m k = none ↔ ∀ p ∈ m, (p : Nat × α).1 ≠ k := by
  induction m with
  | nil => simp [alFind]
  | cons hd tl ih =>
    by_cases hh : hd.1 = k
    · simp [alFind, hh]
    · simp only [alFind, if_neg hh, ih, List.mem_cons]
      constructor
      · intro h p hp
        rcases hp with hp | hp
        · rw [hp]; exact hh
        · exact h p hp
      · intro h p hp
        exact h p (Or.inr hp)

/-! ### disputedSum lemmas -/

theorem disputedSum_nil (client : Nat) : disputedSum [] client = 0 := rfl

theorem disputedSum_alInsert_fresh (txs : List (Nat × TransactionWithState)) (k : Nat)
    (v : TransactionWithState) (client : Nat) (h : alFind txs k = none) :
    disputedSum (alInsert txs k v) client = disputedSum txs client + txContrib client v := by
  induction txs with
  | nil => simp [alInsert, disputedSum]
  | cons hd tl ih =>
    by_cases hh : hd.1 = k
    · simp [alFind, hh] at h
    · simp only [alFind, if_neg hh] at h
      simp only [alInsert, if_neg hh, disputedSum, List.map_cons, List.sum_cons]
      have := ih h
      simp only [disputedSum] at this
      omega

theorem disputedSum_alInsert_found (txs : List (Nat × TransactionWithState)) (k : Nat)
    (v old : TransactionWithState) (client : Nat) (h : alFind txs k = some old) :
    disputedSum (alInsert txs k v) client + txContrib client old =
      disputedSum txs client + txContrib client v := by
  induction txs with
  | nil => simp [alFind] at h
  | cons hd tl ih =>
    obtain ⟨k1, v1⟩ := hd
    by_cases hh : k1 = k
    · simp only [alFind, if_pos hh] at h
      cases h
      simp only [alInsert, if_pos hh, disputedSum, List.map_cons, List.sum_cons]
      omega
    · simp only [alFind, if_neg hh] at h
      simp only [alInsert, if_neg hh, disputedSum, List.map_cons, List.sum_cons]
      have := ih h
      simp only [disputedSum] at this
      omega

theorem txContrib_le_disputedSum {txs : List (Nat × TransactionWithState)}
    {p : Nat × TransactionWithState} (h : p ∈ txs) (client : Nat) :
    txContrib client p.2 ≤ disputedSum txs client := by
  induction txs with
  | nil => simp at h
  | cons hd tl ih =>
    simp only [disputedSum, List.map_cons, List.sum_cons]
    rcases List.mem_cons.mp h with h1 | h1
    · rw [h1]; omega
    · have := ih h1
      simp only [disputedSum] at this
      omega

theorem disputedSum_eq_zero (txs : List (Nat × TransactionWithState)) (client : Nat)
    (h : ∀ p ∈ txs, (p : Nat × TransactionWithState).2.tx.client ≠ client) :
    disputedSum txs client = 0 := by
  induction txs with
  | nil => rfl
  | cons hd tl ih =>
    simp only [disputedSum, List.map_cons, List.sum_cons]
    have h1 : txContrib client hd.2 = 0 := by
      simp only [txContrib]
      rw [if_neg]
      intro hcontra
      exact h hd (List.mem_cons_self hd tl) hcontra.1
    have h2 := ih (fun p hp => h p (List.mem_cons_of_mem _ hp))
    simp only [disputedSum] at h2
    omega

/-! ### Checked arithmetic and balance operation lemmas -/

theorem checked_add_eq_some {a b : Nat} (h : a + b ≤ U64_MAX) :
    checked_add a b = some (a + b) := by simp [checked_add, h]

theorem checked_add_some_iff {a b c : Nat} :
    checked_add a b = some c ↔ a + b ≤ U64_MAX ∧ c = a + b := by
  simp only [checked_add]
  split <;> simp_all <;> omega

theorem checked_add_none_iff {a b : Nat} :
    checked_add a b = none ↔ U64_MAX < a + b := by
  simp only [checked_add]
  split <;> simp_all

theorem checked_sub_eq_some {a b : Nat} (h : b ≤ a) :
    checked_sub a b = some (a - b) := by simp [checked_sub, h]

theorem checked_sub_some_iff {a b c : Nat} :
    checked_sub a b = some c ↔ b ≤ a ∧ c = a - b := by
  simp only [checked_sub]
  split <;> simp_all <;> omega

theorem checked_sub_none_iff {a b : Nat} :
    checked_sub a b = none ↔ a < b := by
  simp only [checked_sub]
  split <;> simp_all

namespace AccountBalance

theorem checked_add_isSome {a b : Nat} :
    (checked_add a b).isSome = true ↔ a + b ≤ U64_MAX := by
  simp only [checked_add]
  split <;> simp_all

theorem update_some_iff {na nh : Nat} {b : AccountBalance} :
    update na nh = some b ↔ na + nh ≤ U64_MAX ∧ b = { available := na, held := nh } := by
  simp only [update]
  by_cases h : na + nh ≤ U64_MAX
  · rw [if_pos (checked_add_isSome.mpr h)]
    simp only [Option.some.injEq]
    constructor
    · intro hh; exact ⟨h, hh.symm⟩
    · intro hh; exact hh.2.symm
  · rw [if_neg (fun hh => h (checked_add_isSome.mp hh))]
    constructor
    · intro hh; cases hh
    · intro hh; omega

theorem update_none_iff {na nh : Nat} :
    update na nh = none ↔ U64_MAX < na + nh := by
  simp only [update]
  by_cases h : na + nh ≤ U64_MAX
  · rw [if_pos (checked_add_isSome.mpr h)]
    constructor
    · intro hh; cases hh
    · intro hh; omega
  · rw [if_neg (fun hh => h (checked_add_isSome.mp hh))]
    constructor
    · intro _; omega
    · intro _; rfl

theorem inc_available_some_iff {b : AccountBalance} {a : Nat} {b2 : AccountBalance} :
    inc_available b a = some b2 ↔
      b.available + a + b.held ≤ U64_MAX ∧
      b2 = { available := b.available + a, held := b.held } := by
  simp only [inc_available]
  rcases h : checked_add b.available a with _ | v
  · rw [checked_add_none_iff] at h
    simp only [update_some_iff]
    constructor
    · intro hh; cases hh
    · intro hh; omega
  · rw [checked_add_some_iff] at h
    rw [update_some_iff, h.2]

theorem inc_available_none_iff {b : AccountBalance} {a : Nat} :
    inc_available b a = none ↔ U64_MAX < b.available + a + b.held := by
  simp only [inc_available]
  rcases h : checked_add b.available a with _ | v
  · rw [checked_add_none_iff] at h
    simp only [true_iff]
    omega
  · rw [checked_add_some_iff] at h
    rw [update_none_iff, h.2]

theorem dec_available_some_iff {b : AccountBalance} {a : Nat} {b2 : AccountBalance} :
    dec_available b a = some b2 ↔
      a ≤ b.available ∧ b.available - a + b.held ≤ U64_MAX ∧
      b2 = { available := b.available - a, held := b.held } := by
  simp only [dec_available]
  rcases h : checked_sub b.available a with _ | v
  · rw [checked_sub_none_iff] at h
    simp only [update_some_iff]
    constructor
    · intro hh; cases hh
    · intro hh; omega
  · rw [checked_sub_some_iff] at h
    rw [update_some_iff, h.2]
    constructor
    · intro hh; exact ⟨h.1, hh.1, hh.2⟩
    · intro hh; exact ⟨hh.2.1, hh.2.2⟩

theorem dec_available_none_iff {b : AccountBalance} {a : Nat} :
    dec_available b a = none ↔
      b.available < a ∨ U64_MAX < b.available - a + b.held := by
  simp only [dec_available]
  rcases h : checked_sub b.available a with _ | v
  · rw [checked_sub_none_iff] at h
    simp only [true_iff]
    omega
  · rw [checked_sub_some_iff] at h
    rw [update_none_iff, h.2]
    omega

theorem move_available_to_held_some_iff {b : AccountBalance} {a : Nat} {b2 : AccountBalance} :
    move_available_to_held b a = some b2 ↔
      a ≤ b.available ∧ b.held + a ≤ U64_MAX ∧
      b.available - a + (b.held + a) ≤ U64_MAX ∧
      b2 = { available := b.available - a, held := b.held + a } := by
  simp only [move_available_to_held]
  rcases h : checked_sub b.available a with _ | v
  · rw [checked_sub_none_iff] at h
    constructor
    · intro hh; cases hh
    · intro hh; omega
  · rw [checked_sub_some_iff] at h
    rcases h2 : checked_add b.held a with _ | w
    · rw [checked_add_none_iff] at h2
      constructor
      · intro hh; cases hh
      · intro hh; omega
    · rw [checked_add_some_iff] at h2
      rw [update_some_iff, h.2, h2.2]
      constructor
      · intro hh; exact ⟨h.1, h2.1, hh.1, hh.2⟩
      · intro hh; exact ⟨hh.2.2.1, hh.2.2.2⟩

theorem move_available_to_held_none_iff {b : AccountBalance} {a : Nat} :
    move_available_to_held b a = none ↔
      b.available < a ∨ U64_MAX < b.held + a ∨
      U64_MAX < b.available - a + (b.held + a) := by
  simp only [move_available_to_held]
  rcases h : checked_sub b.available a with _ | v
  · rw [checked_sub_none_iff] at h
    simp only [true_iff]
    omega
  · rw [checked_sub_some_iff] at h
    rcases h2 : checked_add b.held a with _ | w
    · rw [checked_add_none_iff] at h2
      simp only [true_iff]
      omega
    · rw [checked_add_some_iff] at h2
      rw [update_none_iff, h.2, h2.2]
      omega

theorem move_held_to_available_some_iff {b : AccountBalance} {a : Nat} {b2 : AccountBalance} :
    move_held_to_available b a = some b2 ↔
      b.available + a ≤ U64_MAX ∧ a ≤ b.held ∧
      b.available + a + (b.held - a) ≤ U64_MAX ∧
      b2 = { available := b.available + a, held := b.held - a } := by
  simp only [move_held_to_available]
  rcases h : checked_add b.available a with _ | v
  · rw [checked_add_none_iff] at h
    constructor
    · intro hh; cases hh
    · intro hh; omega
  · rw [checked_add_some_iff] at h
    rcases h2 : checked_sub b.held a with _ | w
    · rw [checked_sub_none_iff] at h2
      constructor
      · intro hh; cases hh
      · intro hh; omega
    · rw [checked_sub_some_iff] at h2
      rw [update_some_iff, h.2, h2.2]
      constructor
      · intro hh; exact ⟨h.1, h2.1, hh.1, hh.2⟩
      · intro hh; exact ⟨hh.2.2.1, hh.2.2.2⟩

theorem move_held_to_available_none_iff {b : AccountBalance} {a : Nat} :
    move_held_to_available b a = none ↔
      U64_MAX < b.available + a ∨ b.held < a ∨
      U64_MAX < b.available + a + (b.held - a) := by
  simp only [move_held_to_available]
  rcases h : checked_add b.available a with _ | v
  · rw [checked_add_none_iff] at h
    simp only [true_iff]
    omega
  · rw [checked_add_some_iff] at h
    rcases h2 : checked_sub b.held a with _ | w
    · rw [checked_sub_none_iff] at h2
      simp only [true_iff]
      omega
    · rw [checked_sub_some_iff] at h2
      rw [update_none_iff, h.2, h2.2]
      omega

end AccountBalance

/-! ### Invariant preservation -/

theorem txContrib_not_disputed {client : Nat} {t : TransactionWithState}
    (h : t.state ≠ TransactionState.Disputed) : txContrib client t = 0 := by
  simp only [txContrib]
  rw [if_neg]
  intro hc
  exact h hc.2

theorem txContrib_ne_client {client : Nat} {t : TransactionWithState}
    (h : t.tx.client ≠ client) : txContrib client t = 0 := by
  simp only [txContrib]
  rw [if_neg]
  intro hc
  exact h hc.1

theorem upsert_account_found {accounts : List (Nat × MemAccount)} {client : Nat}
    {a : MemAccount} (h : alFind accounts client = some a) :
    upsert_account accounts client = (a, accounts) := by
  simp [upsert_account, h]

theorem upsert_account_fresh {accounts : List (Nat × MemAccount)} {client : Nat}
    (h : alFind accounts client = none) :
    upsert_account accounts client =
      (MemAccount.new client, alInsert accounts client (MemAccount.new client)) := by
  simp [upsert_account, h]

theorem upsert_account_find_self (accounts : List (Nat × MemAccount)) (client : Nat) :
    (alFind (upsert_account accounts client).2 client).isSome := by
  rcases h : alFind accounts client with _ | a
  · rw [upsert_account_fresh h]
    simp [alFind_alInsert_self]
  · rw [upsert_account_found h]
    simp [h]

theorem upsert_account_id {accounts : List (Nat × MemAccount)} {client : Nat}
    (hkey : ∀ p ∈ accounts, (p : Nat × MemAccount).2.id = p.1) :
    (upsert_account accounts client).1.id = client := by
  rcases h : alFind accounts client with _ | a
  · rw [upsert_account_fresh h]
    rfl
  · rw [upsert_account_found h]
    exact hkey (client, a) (alFind_mem h)

theorem find_none_sum_zero {s : MemAccountService} (hInv : Inv s) {client : Nat}
    (h : alFind s.accounts client = none) : disputedSum s.transactions client = 0 := by
  refine disputedSum_eq_zero _ _ ?_
  intro q hq hqc
  have hsome := hInv.tx_owner q hq
  rw [hqc, h] at hsome
  simp at hsome

theorem upsert_account_held {s : MemAccountService} (hInv : Inv s) (client : Nat) :
    (upsert_account s.accounts client).1.balance.held = disputedSum s.transactions client := by
  rcases h : alFind s.accounts client with _ | a
  · rw [upsert_account_fresh h]
    exact (find_none_sum_zero hInv h).symm
  · rw [upsert_account_found h]
    exact hInv.held_sum (client, a) (alFind_mem h)

theorem inv_new (p : WithdrawalDisputePolicy) : Inv (MemAccountService.new p) := by
  constructor <;> simp [MemAccountService.new]

theorem inv_upsert_account {s : MemAccountService} (hInv : Inv s) (client : Nat) :
    Inv { s with accounts := (upsert_account s.accounts client).2 } := by
  rcases h : alFind s.accounts client with _ | a
  · rw [upsert_account_fresh h]
    constructor
    · exact hInv.tx_nodup
    · exact nodup_alInsert _ _ hInv.acc_nodup
    · exact hInv.tx_key
    · intro p hp
      rcases mem_alInsert hp with h1 | h1
      · rw [h1]
        rfl
      · exact hInv.acc_key p h1
    · intro p hp
      exact alFind_isSome_alInsert _ _ _ _ (hInv.tx_owner p hp)
    · intro p hp
      rcases mem_alInsert hp with h1 | h1
      · rw [h1]
        exact Nat.zero_le _
      · exact hInv.bal_ok p h1
    · intro p hp
      rcases mem_alInsert hp with h1 | h1
      · rw [h1]
        exact (find_none_sum_zero hInv h).symm
      · exact hInv.held_sum p h1
  · rw [upsert_account_found h]
    exact hInv

theorem inv_stub {s : MemAccountService} (hInv : Inv s) (tx : Transaction)
    (hfresh : alFind s.transactions tx.id = none) :
    Inv { s with
            accounts := (upsert_account s.accounts tx.client).2,
            transactions :=
              alInsert s.transactions tx.id (TransactionWithState.rejected tx) } := by
  have hInv1 : Inv { s with accounts := (upsert_account s.accounts tx.client).2 } :=
    inv_upsert_account hInv tx.client
  constructor
  · exact nodup_alInsert _ _ hInv.tx_nodup
  · exact hInv1.acc_nodup
  · intro p hp
    rcases mem_alInsert hp with h1 | h1
    · rw [h1]
      rfl
    · exact hInv.tx_key p h1
  · exact hInv1.acc_key
  · intro p hp
    rcases mem_alInsert hp with h1 | h1
    · rw [h1]
      exact upsert_account_find_self s.accounts tx.client
    · exact hInv1.tx_owner p h1
  · exact hInv1.bal_ok
  · intro p hp
    have h2 : p.2.balance.held = disputedSum s.transactions p.1 := hInv1.held_sum p hp
    show p.2.balance.held =
      disputedSum (alInsert s.transactions tx.id (TransactionWithState.rejected tx)) p.1
    rw [disputedSum_alInsert_fresh _ _ _ _ hfresh,
      txContrib_not_disputed (t := TransactionWithState.rejected tx) (by intro hc; cases hc)]
    omega

theorem inv_txn_success {s : MemAccountService} (hInv : Inv s) (tx : Transaction)
    (b : AccountBalance)
    (hfresh : alFind s.transactions tx.id = none)
    (hheld : b.held = (upsert_account s.accounts tx.client).1.balance.held)
    (hbal : b.available + b.held ≤ U64_MAX) :
    Inv { s with
            accounts := alInsert (upsert_account s.accounts tx.client).2 tx.client
              { (upsert_account s.accounts tx.client).1 with balance := b },
            transactions :=
              alInsert s.transactions tx.id (TransactionWithState.valid tx) } := by
  have hInv1 : Inv { s with accounts := (upsert_account s.accounts tx.client).2 } :=
    inv_upsert_account hInv tx.client
  have hsum : ∀ cl, disputedSum
      (alInsert s.transactions tx.id (TransactionWithState.valid tx)) cl =
      disputedSum s.transactions cl := by
    intro cl
    rw [disputedSum_alInsert_fresh _ _ _ _ hfresh,
      txContrib_not_disputed (t := TransactionWithState.valid tx) (by intro hc; cases hc)]
    omega
  constructor
  · exact nodup_alInsert _ _ hInv.tx_nodup
  · exact nodup_alInsert _ _ hInv1.acc_nodup
  · intro p hp
    rcases mem_alInsert hp with h1 | h1
    · rw [h1]
      rfl
    · exact hInv.tx_key p h1
  · intro p hp
    rcases mem_alInsert hp with h1 | h1
    · rw [h1]
      exact upsert_account_id hInv.acc_key
    · exact hInv1.acc_key p h1
  · intro p hp
    rcases mem_alInsert hp with h1 | h1
    · rw [h1]
      show (alFind (alInsert (upsert_account s.accounts tx.client).2 tx.client
        { (upsert_account s.accounts tx.client).1 with balance := b }) tx.client).isSome
      rw [alFind_alInsert_self]
      rfl
    · exact alFind_isSome_alInsert _ _ _ _ (hInv1.tx_owner p h1)
  · intro p hp
    rcases mem_alInsert hp with h1 | h1
    · rw [h1]
      exact hbal
    · exact hInv1.bal_ok p h1
  · intro p hp
    rcases mem_alInsert hp with h1 | h1
    · rw [h1]
      show b.held = disputedSum
        (alInsert s.transactions tx.id (TransactionWithState.valid tx)) tx.client
      rw [hsum, hheld, upsert_account_held hInv]
    · rw [hsum]
      exact hInv1.held_sum p h1

theorem inv_claim_update {s : MemAccountService} (hInv : Inv s) {k : Nat}
    {txws : TransactionWithState} {account : MemAccount}
    (b : AccountBalance) (st2 : TransactionState) (l2 : Bool)
    (htx : alFind s.transactions k = some txws)
    (hacc : alFind s.accounts txws.tx.client = some account)
    (hbal : b.available + b.held ≤ U64_MAX)
    (hrel : b.held + txContrib txws.tx.client txws =
            account.balance.held + txContrib txws.tx.client { txws with state := st2 }) :
    Inv { s with
            accounts := alInsert s.accounts txws.tx.client
              { account with balance := b, locked := l2 },
            transactions := alInsert s.transactions k { txws with state := st2 } } := by
  have hmemtx : (k, txws) ∈ s.transactions := alFind_mem htx
  have hmemacc : (txws.tx.client, account) ∈ s.accounts := alFind_mem hacc
  have htid : txws.tx.id = k := hInv.tx_key (k, txws) hmemtx
  have haid : account.id = txws.tx.client := hInv.acc_key (txws.tx.client, account) hmemacc
  have hheld_old : account.balance.held = disputedSum s.transactions txws.tx.client :=
    hInv.held_sum (txws.tx.client, account) hmemacc
  constructor
  · exact nodup_alInsert _ _ hInv.tx_nodup
  · exact nodup_alInsert _ _ hInv.acc_nodup
  · intro p hp
    rcases mem_alInsert hp with h1 | h1
    · rw [h1]
      exact htid
    · exact hInv.tx_key p h1
  · intro p hp
    rcases mem_alInsert hp with h1 | h1
    · rw [h1]
      exact haid
    · exact hInv.acc_key p h1
  · intro p hp
    rcases mem_alInsert hp with h1 | h1
    · rw [h1]
      show (alFind (alInsert s.accounts txws.tx.client
        { account with balance := b, locked := l2 }) txws.tx.client).isSome
      rw [alFind_alInsert_self]
      rfl
    · exact alFind_isSome_alInsert _ _ _ _ (hInv.tx_owner p h1)
  · intro p hp
    rcases mem_alInsert hp with h1 | h1
    · rw [h1]
      exact hbal
    · exact hInv.bal_ok p h1
  · intro p hp
    rcases mem_alInsert_nodup hInv.acc_nodup hp with h1 | h1
    · rw [h1]
      show b.held = disputedSum (alInsert s.transactions k { txws with state := st2 })
        txws.tx.client
      have h2 := disputedSum_alInsert_found s.transactions k
        { txws with state := st2 } txws txws.tx.client htx
      omega
    · show p.2.balance.held =
        disputedSum (alInsert s.transactions k { txws with state := st2 }) p.1
      have h2 := disputedSum_alInsert_found s.transactions k
        { txws with state := st2 } txws p.1 htx
      have hc1 : txContrib p.1 txws = 0 := by
        refine txContrib_ne_client ?_
        intro hcontra
        exact h1.2 hcontra.symm
      have hc2 : txContrib p.1 { txws with state := st2 } = 0 := by
        refine txContrib_ne_client ?_
        intro hcontra
        exact h1.2 hcontra.symm
      have h3 := hInv.held_sum p h1.1
      omega

theorem inv_submit_deposit {s : MemAccountService} (c : TransactionMeta) (hInv : Inv s) :
    Inv (submit_deposit s c).2 := by
  simp only [submit_deposit]
  rcases h : alFind s.transactions c.id with _ | existing
  · simp only []
    by_cases hl : (upsert_account s.accounts c.client).1.locked
    · simp only [if_pos hl]
      exact inv_stub hInv (Transaction.Deposit c) h
    · simp only [if_neg hl]
      rcases hb : AccountBalance.inc_available
          (upsert_account s.accounts c.client).1.balance c.amount with _ | b
      · exact inv_stub hInv (Transaction.Deposit c) h
      · rw [AccountBalance.inc_available_some_iff] at hb
        refine inv_txn_success hInv (Transaction.Deposit c) b h ?_ ?_
        · rw [hb.2]
          rfl
        · rw [hb.2]
          exact hb.1
  · simp only []
    by_cases he : existing.tx = Transaction.Deposit c
    · simp only [if_pos he]
      exact inv_upsert_account hInv c.client
    · simp only [if_neg he]
      exact inv_upsert_account hInv c.client

theorem inv_submit_withdrawal {s : MemAccountService} (c : TransactionMeta) (hInv : Inv s) :
    Inv (submit_withdrawal s c).2 := by
  simp only [submit_withdrawal]
  rcases h : alFind s.transactions c.id with _ | existing
  · simp only []
    by_cases hl : (upsert_account s.accounts c.client).1.locked
    · simp only [if_pos hl]
      exact inv_stub hInv (Transaction.Withdrawal c) h
    · simp only [if_neg hl]
      by_cases hav : (upsert_account s.accounts c.client).1.balance.available < c.amount
      · simp only [if_pos hav]
        exact inv_stub hInv (Transaction.Withdrawal c) h
      · simp only [if_neg hav]
        rcases hb : AccountBalance.dec_available
            (upsert_account s.accounts c.client).1.balance c.amount with _ | b
        · exact inv_stub hInv (Transaction.Withdrawal c) h
        · rw [AccountBalance.dec_available_some_iff] at hb
          refine inv_txn_success hInv (Transaction.Withdrawal c) b h ?_ ?_
          · rw [hb.2.2]
            rfl
          · rw [hb.2.2]
            exact hb.2.1
  · simp only []
    by_cases he : existing.tx = Transaction.Withdrawal c
    · simp only [if_pos he]
      exact inv_upsert_account hInv c.client
    · simp only [if_neg he]
      exact inv_upsert_account hInv c.client

theorem inv_submit_dispute {s : MemAccountService} (c : cmd.Dispute) (hInv : Inv s) :
    Inv (submit_dispute s c).2 := by
  simp only [submit_dispute]
  split
  · exact hInv
  · rename_i txws h
    split
    · exact inv_upsert_account hInv txws.tx.client
    · split
      · exact inv_upsert_account hInv txws.tx.client
      · split
        · exact inv_upsert_account hInv txws.tx.client
        · exact inv_upsert_account hInv txws.tx.client
        · rename_i hst
          split
          · exact inv_upsert_account hInv txws.tx.client
          · split
            · exact inv_upsert_account hInv txws.tx.client
            · rename_i b hmv
              have hsome : (alFind s.accounts txws.tx.client).isSome :=
                hInv.tx_owner (c.tx, txws) (alFind_mem h)
              rcases hacc : alFind s.accounts txws.tx.client with _ | account
              · rw [hacc] at hsome
                cases hsome
              · rw [upsert_account_found hacc] at hmv ⊢
                simp only [] at hmv ⊢
                rw [AccountBalance.move_available_to_held_some_iff] at hmv
                have hbal : b.available + b.held ≤ U64_MAX := by
                  rw [hmv.2.2.2]
                  exact hmv.2.2.1
                have hrel : b.held + txContrib txws.tx.client txws =
                    account.balance.held + txContrib txws.tx.client
                      { txws with state := TransactionState.Disputed } := by
                  have hc1 : txContrib txws.tx.client txws = 0 :=
                    txContrib_not_disputed (by rw [hst]; intro hh; cases hh)
                  have hc2 : txContrib txws.tx.client
                      { txws with state := TransactionState.Disputed } = txws.tx.amount := by
                    simp [txContrib]
                  rw [hc1, hc2, hmv.2.2.2]
                  simp only []
                  omega
                exact inv_claim_update hInv b TransactionState.Disputed account.locked
                  h hacc hbal hrel

theorem inv_submit_resolve {s : MemAccountService} (c : cmd.Resolve) (hInv : Inv s) :
    Inv (submit_resolve s c).2 := by
  simp only [submit_resolve]
  split
  · exact hInv
  · rename_i txws h
    split
    · exact inv_upsert_account hInv txws.tx.client
    · split
      · exact inv_upsert_account hInv txws.tx.client
      · split
        · exact inv_upsert_account hInv txws.tx.client
        · exact inv_upsert_account hInv txws.tx.client
        · rename_i hst
          split
          · exact inv_upsert_account hInv txws.tx.client
          · rename_i b hmv
            have hsome : (alFind s.accounts txws.tx.client).isSome :=
              hInv.tx_owner (c.tx, txws) (alFind_mem h)
            rcases hacc : alFind s.accounts txws.tx.client with _ | account
            · rw [hacc] at hsome
              cases hsome
            · rw [upsert_account_found hacc] at hmv ⊢
              simp only [] at hmv ⊢
              rw [AccountBalance.move_held_to_available_some_iff] at hmv
              have hbal : b.available + b.held ≤ U64_MAX := by
                rw [hmv.2.2.2]
                exact hmv.2.2.1
              have hrel : b.held + txContrib txws.tx.client txws =
                  account.balance.held + txContrib txws.tx.client
                    { txws with state := TransactionState.Valid } := by
                have hc1 : txContrib txws.tx.client txws = txws.tx.amount := by
                  simp [txContrib, hst]
                have hc2 : txContrib txws.tx.client
                    { txws with state := TransactionState.Valid } = 0 :=
                  txContrib_not_disputed (by intro hh; cases hh)
                rw [hc1, hc2, hmv.2.2.2]
                simp only []
                omega
              exact inv_claim_update hInv b TransactionState.Valid account.locked
                h hacc hbal hrel

theorem inv_submit_chargeback {s : MemAccountService} (c : cmd.Chargeback) (hInv : Inv s) :
    Inv (submit_chargeback s c).2 := by
  simp only [submit_chargeback]
  split
  · exact hInv
  · rename_i txws h
    split
    · exact inv_upsert_account hInv txws.tx.client
    · split
      · exact inv_upsert_account hInv txws.tx.client
      · split
        · exact inv_upsert_account hInv txws.tx.client
        · exact inv_upsert_account hInv txws.tx.client
        · rename_i hst
          split
          · exact inv_upsert_account hInv txws.tx.client
          · rename_i p hpair
            split
            · exact inv_upsert_account hInv txws.tx.client
            · rename_i b hup
              have hsome : (alFind s.accounts txws.tx.client).isSome :=
                hInv.tx_owner (c.tx, txws) (alFind_mem h)
              rcases hacc : alFind s.accounts txws.tx.client with _ | account
              · rw [hacc] at hsome
                cases hsome
              · rw [upsert_account_found hacc] at hpair ⊢
                simp only [] at hpair ⊢
                rw [AccountBalance.update_some_iff] at hup
                have hp2 : p.2 + txws.tx.amount = account.balance.held := by
                  rcases htx : txws.tx with m | m
                  · rw [htx] at hpair
                    simp only [] at hpair
                    rcases hsub : checked_sub account.balance.held
                        (Transaction.Deposit m).amount with _ | nh
                    · rw [hsub] at hpair
                      cases hpair
                    · rw [hsub] at hpair
                      rw [checked_sub_some_iff] at hsub
                      cases hpair
                      simp only []
                      omega
                  · rw [htx] at hpair
                    simp only [] at hpair
                    rcases hsub : checked_sub account.balance.held
                        (Transaction.Withdrawal m).amount with _ | nh
                    · rw [hsub] at hpair
                      cases hpair
                    · rw [hsub] at hpair
                      simp only [] at hpair
                      rcases ha1 : checked_add account.balance.available
                          (Transaction.Withdrawal m).amount with _ | na1
                      · rw [ha1] at hpair
                        cases hpair
                      · rw [ha1] at hpair
                        simp only [] at hpair
                        rcases ha2 : checked_add na1 (Transaction.Withdrawal m).amount
                            with _ | na
                        · rw [ha2] at hpair
                          cases hpair
                        · rw [ha2] at hpair
                          rw [checked_sub_some_iff] at hsub
                          cases hpair
                          simp only []
                          omega
                have hbal : b.available + b.held ≤ U64_MAX := by
                  rw [hup.2]
                  exact hup.1
                have hrel : b.held + txContrib txws.tx.client txws =
                    account.balance.held + txContrib txws.tx.client
                      { txws with state := TransactionState.Rejected } := by
                  have hc1 : txContrib txws.tx.client txws = txws.tx.amount := by
                    simp [txContrib, hst]
                  have hc2 : txContrib txws.tx.client
                      { txws with state := TransactionState.Rejected } = 0 :=
                    txContrib_not_disputed (by intro hh; cases hh)
                  rw [hc1, hc2, hup.2]
                  simp only []
                  omega
                exact inv_claim_update hInv b TransactionState.Rejected true
                  h hacc hbal hrel

theorem inv_submit {s : MemAccountService} (c : Command) (hInv : Inv s) :
    Inv (s.submit c).2 := by
  cases c with
  | Deposit m =>
    have h2 := inv_submit_deposit m hInv
    rcases h : submit_deposit s m with ⟨r, s2⟩
    rw [h] at h2
    simp only [MemAccountService.submit, h]
    cases r with
    | ok _ => exact h2
    | error _ => exact h2
  | Withdrawal m =>
    have h2 := inv_submit_withdrawal m hInv
    rcases h : submit_withdrawal s m with ⟨r, s2⟩
    rw [h] at h2
    simp only [MemAccountService.submit, h]
    cases r with
    | ok _ => exact h2
    | error _ => exact h2
  | Dispute c =>
    have h2 := inv_submit_dispute c hInv
    rcases h : submit_dispute s c with ⟨r, s2⟩
    rw [h] at h2
    simp only [MemAccountService.submit, h]
    cases r with
    | ok _ => exact h2
    | error _ => exact h2
  | Resolve c =>
    have h2 := inv_submit_resolve c hInv
    rcases h : submit_resolve s c with ⟨r, s2⟩
    rw [h] at h2
    simp only [MemAccountService.submit, h]
    cases r with
    | ok _ => exact h2
    | error _ => exact h2
  | Chargeback c =>
    have h2 := inv_submit_chargeback c hInv
    rcases h : submit_chargeback s c with ⟨r, s2⟩
    rw [h] at h2
    simp only [MemAccountService.submit, h]
    cases r with
    | ok _ => exact h2
    | error _ => exact h2

theorem inv_foldl (cmds : List Command) :
    ∀ s : MemAccountService, Inv s → Inv (cmds.foldl stepCmd s) := by
  induction cmds with
  | nil => intro s h; exact h
  | cons c rest ih =>
    intro s h
    simp only [List.foldl_cons]
    exact ih _ (inv_submit c h)

theorem inv_applyAll (p : WithdrawalDisputePolicy) (cmds : List Command) :
    Inv (applyAll p cmds) :=
  inv_foldl cmds _ (inv_new p)

/-! ### Further helpers about upsert_account -/

theorem upsert_account_cases (accounts : List (Nat × MemAccount)) (client : Nat) :
    (upsert_account accounts client).2 = accounts ∨
    (alFind accounts client = none ∧
      (upsert_account accounts client).2 =
        alInsert accounts client (MemAccount.new client)) := by
  rcases h : alFind accounts client with _ | a
  · right
    rw [upsert_account_fresh h]
    exact ⟨rfl, rfl⟩
  · left
    rw [upsert_account_found h]

theorem upsert_account_avail (s : MemAccountService) (client : Nat) :
    (upsert_account s.accounts client).1.balance.available = availOf s client := by
  rcases h : alFind s.accounts client with _ | a
  · rw [upsert_account_fresh h]
    simp [availOf, h, MemAccount.new, AccountBalance.new]
  · rw [upsert_account_found h]
    simp [availOf, h]

theorem upsert_view_avail (s : MemAccountService) (client cl : Nat) :
    availOf { s with accounts := (upsert_account s.accounts client).2 } cl =
      availOf s cl := by
  rcases upsert_account_cases s.accounts client with h | ⟨hfind, h⟩
  · simp only [availOf, h]
  · simp only [availOf, h]
    by_cases hc : client = cl
    · subst hc
      rw [alFind_alInsert_self, hfind]
      rfl
    · rw [alFind_alInsert_ne _ _ _ _ hc]

theorem upsert_view_held (s : MemAccountService) (client cl : Nat) :
    heldOf { s with accounts := (upsert_account s.accounts client).2 } cl =
      heldOf s cl := by
  rcases upsert_account_cases s.accounts client with h | ⟨hfind, h⟩
  · simp only [heldOf, h]
  · simp only [heldOf, h]
    by_cases hc : client = cl
    · subst hc
      rw [alFind_alInsert_self, hfind]
      rfl
    · rw [alFind_alInsert_ne _ _ _ _ hc]

theorem upsert_view_locked (s : MemAccountService) (client cl : Nat) :
    lockedOf { s with accounts := (upsert_account s.accounts client).2 } cl =
      lockedOf s cl := by
  rcases upsert_account_cases s.accounts client with h | ⟨hfind, h⟩
  · simp only [lockedOf, h]
  · simp only [lockedOf, h]
    by_cases hc : client = cl
    · subst hc
      rw [alFind_alInsert_self, hfind]
      rfl
    · rw [alFind_alInsert_ne _ _ _ _ hc]

/-! ### Claim theorems -/

/-- C10: in every reachable engine state, each account's held amount equals
the sum of the amounts of the transactions owned by that account whose state
is `Disputed`. -/
theorem c10_held_eq_disputed_sum (p : WithdrawalDisputePolicy) (cmds : List Command)
    (k : Nat) (a : MemAccount)
    (h : alFind (applyAll p cmds).accounts k = some a) :
    a.balance.held = disputedSum (applyAll p cmds).transactions a.id := by
  have hInv := inv_applyAll p cmds
  have hkey : a.id = k := hInv.acc_key (k, a) (alFind_mem h)
  rw [hkey]
  exact hInv.held_sum (k, a) (alFind_mem h)

/-- C10 witness: after a deposit of `10.0000` and a dispute of it, account 1
holds `10.0000`, which is the disputed sum of its transactions. -/
theorem c10_held_eq_disputed_sum_witness :
    ({ id := 1, locked := false,
       balance := { available := 0, held := 100000 } } : MemAccount).balance.held =
      disputedSum (applyAll WithdrawalDisputePolicy.IfMoreAvailableThanDisputed
        [Command.Deposit { id := 1, client := 1, amount := 100000 },
         Command.Dispute { client := 1, tx := 1 }]).transactions 1 :=
  c10_held_eq_disputed_sum WithdrawalDisputePolicy.IfMoreAvailableThanDisputed
    [Command.Deposit { id := 1, client := 1, amount := 100000 },
     Command.Dispute { client := 1, tx := 1 }]
    1
    { id := 1, locked := false, balance := { available := 0, held := 100000 } }
    (by decide)

/-- C2: in every reachable engine state (and thus in every snapshot row),
`available` and `held` are non-negative (they are `Nat`s mirroring `u64`) and
the total `available + held` is representable in the backing `u64`; moreover
each balance mutation fails (returns `none`, committing nothing) exactly when
it would underflow a component or make a component or the total
unrepresentable. -/
theorem c2_balance_invariant :
    (∀ (p : WithdrawalDisputePolicy) (cmds : List Command) (a : Account),
      a ∈ get_all_accounts (applyAll p cmds) →
      a.balance.available + a.balance.held ≤ U64_MAX) ∧
    (∀ na nh : Nat, AccountBalance.update na nh = none ↔ U64_MAX < na + nh) ∧
    (∀ (b : AccountBalance) (amt : Nat),
      b.inc_available amt = none ↔ U64_MAX < b.available + amt + b.held) ∧
    (∀ (b : AccountBalance) (amt : Nat),
      b.dec_available amt = none ↔
        b.available < amt ∨ U64_MAX < b.available - amt + b.held) ∧
    (∀ (b : AccountBalance) (amt : Nat),
      b.move_available_to_held amt = none ↔
        b.available < amt ∨ U64_MAX < b.held + amt ∨
        U64_MAX < b.available - amt + (b.held + amt)) ∧
    (∀ (b : AccountBalance) (amt : Nat),
      b.move_held_to_available amt = none ↔
        U64_MAX < b.available + amt ∨ b.held < amt ∨
        U64_MAX < b.available + amt + (b.held - amt)) := by
  refine ⟨?_, ?_, ?_, ?_, ?_, ?_⟩
  · intro p cmds a ha
    simp only [get_all_accounts, List.mem_map] at ha
    obtain ⟨q, hq, hqa⟩ := ha
    have := (inv_applyAll p cmds).bal_ok q hq
    rw [← hqa]
    exact this
  · intro na nh
    exact AccountBalance.update_none_iff
  · intro b amt
    exact AccountBalance.inc_available_none_iff
  · intro b amt
    exact AccountBalance.dec_available_none_iff
  · intro b amt
    exact AccountBalance.move_available_to_held_none_iff
  · intro b amt
    exact AccountBalance.move_held_to_available_none_iff

/-- C2 witness: the snapshot row of account 1 after one deposit satisfies the
representability bound, by the theorem applied at a concrete input. -/
theorem c2_balance_invariant_witness :
    ({ client := 1, balance := { available := 12345, held := 0 },
       locked := false } : Account).balance.available +
      ({ client := 1, balance := { available := 12345, held := 0 },
         locked := false } : Account).balance.held ≤ U64_MAX :=
  c2_balance_invariant.1 WithdrawalDisputePolicy.IfMoreAvailableThanDisputed
    [Command.Deposit { id := 1, client := 1, amount := 12345 }]
    { client := 1, balance := { available := 12345, held := 0 }, locked := false }
    (by decide)

/-- C1 counterexample: in Scenario E (policy `IfMoreAvailableThanDisputed`,
deposit `10.0000`, withdrawal `4.0000`, dispute of the withdrawal), the
chargeback succeeds but leaves `available = 10.0000` (= `100000` fractions),
not `6.0000` (= `60000`) as the claim states: the code credits the disputed
amount twice (un-freeze plus refund). -/
theorem c1_counterexample :
    (submit_chargeback
        (applyAll WithdrawalDisputePolicy.IfMoreAvailableThanDisputed
          [Command.Deposit { id := 1, client := 1, amount := 100000 },
           Command.Withdrawal { id := 2, client := 1, amount := 40000 },
           Command.Dispute { client := 1, tx := 2 }])
        { client := 1, tx := 2 }).1 = Except.ok () ∧
    availOf (applyAll WithdrawalDisputePolicy.IfMoreAvailableThanDisputed
      [Command.Deposit { id := 1, client := 1, amount := 100000 },
       Command.Withdrawal { id := 2, client := 1, amount := 40000 },
       Command.Dispute { client := 1, tx := 2 },
       Command.Chargeback { client := 1, tx := 2 }]) 1 = 100000 ∧
    ¬ availOf (applyAll WithdrawalDisputePolicy.IfMoreAvailableThanDisputed
      [Command.Deposit { id := 1, client := 1, amount := 100000 },
       Command.Withdrawal { id := 2, client := 1, amount := 40000 },
       Command.Dispute { client := 1, tx := 2 },
       Command.Chargeback { client := 1, tx := 2 }]) 1 = 60000 := by
  refine ⟨by decide, by decide, by decide⟩

/-- C1 (amended): in Scenario E the chargeback of the disputed withdrawal
succeeds and leaves account 1 with `available = 10.0000`, `held = 0.0000`,
`locked = true`: the code removes the disputed amount from held and credits
available twice (once un-freezing the held security, once refunding the
withdrawn amount), restoring the pre-withdrawal total. -/
theorem c1_chargeback_withdrawal_scenario :
    (submit_chargeback
        (applyAll WithdrawalDisputePolicy.IfMoreAvailableThanDisputed
          [Command.Deposit { id := 1, client := 1, amount := 100000 },
           Command.Withdrawal { id := 2, client := 1, amount := 40000 },
           Command.Dispute { client := 1, tx := 2 }])
        { client := 1, tx := 2 }).1 = Except.ok () ∧
    availOf (applyAll WithdrawalDisputePolicy.IfMoreAvailableThanDisputed
      [Command.Deposit { id := 1, client := 1, amount := 100000 },
       Command.Withdrawal { id := 2, client := 1, amount := 40000 },
       Command.Dispute { client := 1, tx := 2 },
       Command.Chargeback { client := 1, tx := 2 }]) 1 = 100000 ∧
    heldOf (applyAll WithdrawalDisputePolicy.IfMoreAvailableThanDisputed
      [Command.Deposit { id := 1, client := 1, amount := 100000 },
       Command.Withdrawal { id := 2, client := 1, amount := 40000 },
       Command.Dispute { client := 1, tx := 2 },
       Command.Chargeback { client := 1, tx := 2 }]) 1 = 0 ∧
    lockedOf (applyAll WithdrawalDisputePolicy.IfMoreAvailableThanDisputed
      [Command.Deposit { id := 1, client := 1, amount := 100000 },
       Command.Withdrawal { id := 2, client := 1, amount := 40000 },
       Command.Dispute { client := 1, tx := 2 },
       Command.Chargeback { client := 1, tx := 2 }]) 1 = true := by
  refine ⟨by decide, by decide, by decide, by decide⟩

theorem upsert_account_stable {accounts : List (Nat × MemAccount)} {client : Nat}
    (h : (alFind accounts client).isSome) :
    (upsert_account accounts client).2 = accounts := by
  rcases hf : alFind accounts client with _ | a
  · rw [hf] at h
    cases h
  · rw [upsert_account_found hf]

/-- C5: if a deposit command is submitted successfully, resubmitting the
identical command returns `Ok` again and leaves the whole engine state
unchanged; the first submission, when its transaction id was fresh, increases
the account's available balance by the amount exactly once. -/
theorem c5_deposit_idempotent (s : MemAccountService) (m : TransactionMeta)
    (s1 : MemAccountService) (h : submit_deposit s m = (Except.ok (), s1)) :
    submit_deposit s1 m = (Except.ok (), s1) ∧
    (alFind s.transactions m.id = none →
      availOf s1 m.client = availOf s m.client + m.amount) := by
  simp only [submit_deposit] at h
  split at h
  · rename_i existing hfound
    split at h
    · rename_i he
      injection h with h1 h2
      subst h2
      constructor
      · simp only [submit_deposit, hfound, if_pos he]
        rw [upsert_account_stable (upsert_account_find_self s.accounts m.client)]
      · intro hfresh
        rw [hfresh] at hfound
        cases hfound
    · injection h with h1 h2
      cases h1
  · rename_i hfresh0
    split at h
    · injection h with h1 h2
      cases h1
    · split at h
      · injection h with h1 h2
        cases h1
      · rename_i b heq
        injection h with h1 h2
        subst h2
        rw [AccountBalance.inc_available_some_iff] at heq
        constructor
        · have hc : (TransactionWithState.valid (Transaction.Deposit m)).tx =
              Transaction.Deposit m := rfl
          have hself : (alFind (alInsert (upsert_account s.accounts m.client).2 m.client
              { (upsert_account s.accounts m.client).1 with balance := b })
              m.client).isSome := by
            rw [alFind_alInsert_self]
            rfl
          simp only [submit_deposit, alFind_alInsert_self, if_pos hc,
            upsert_account_stable hself]
        · intro hfresh
          simp only [availOf, alFind_alInsert_self]
          rw [heq.2]
          simp only []
          rw [upsert_account_avail]
          rfl

/-- C5 witness: depositing `1.2345` on a fresh engine and replaying the
identical command. -/
theorem c5_deposit_idempotent_witness :
    submit_deposit
        (submit_deposit (MemAccountService.new WithdrawalDisputePolicy.Deny)
          { id := 1, client := 1, amount := 12345 }).2
        { id := 1, client := 1, amount := 12345 } =
      (Except.ok (),
        (submit_deposit (MemAccountService.new WithdrawalDisputePolicy.Deny)
          { id := 1, client := 1, amount := 12345 }).2) ∧
    availOf (submit_deposit (MemAccountService.new WithdrawalDisputePolicy.Deny)
        { id := 1, client := 1, amount := 12345 }).2 1 =
      availOf (MemAccountService.new WithdrawalDisputePolicy.Deny) 1 + 12345 := by
  have h := c5_deposit_idempotent (MemAccountService.new WithdrawalDisputePolicy.Deny)
    { id := 1, client := 1, amount := 12345 }
    (submit_deposit (MemAccountService.new WithdrawalDisputePolicy.Deny)
      { id := 1, client := 1, amount := 12345 }).2
    (by decide)
  exact ⟨h.1, h.2 (by decide)⟩

/-- C6: a Deposit or Withdrawal whose transaction id is already recorded with
different content fails with `TransactionIdConflict`, the transactions map is
unchanged, and every account's balance and lock flag are unchanged. -/
theorem c6_transaction_id_conflict (s : MemAccountService) (m : TransactionMeta)
    (existing : TransactionWithState)
    (hfound : alFind s.transactions m.id = some existing) :
    (existing.tx ≠ Transaction.Deposit m →
      (submit_deposit s m).1 = Except.error DepositError.TransactionIdConflict ∧
      (submit_deposit s m).2.transactions = s.transactions ∧
      ∀ cl, availOf (submit_deposit s m).2 cl = availOf s cl ∧
        heldOf (submit_deposit s m).2 cl = heldOf s cl ∧
        lockedOf (submit_deposit s m).2 cl = lockedOf s cl) ∧
    (existing.tx ≠ Transaction.Withdrawal m →
      (submit_withdrawal s m).1 = Except.error WithdrawalError.TransactionIdConflict ∧
      (submit_withdrawal s m).2.transactions = s.transactions ∧
      ∀ cl, availOf (submit_withdrawal s m).2 cl = availOf s cl ∧
        heldOf (submit_withdrawal s m).2 cl = heldOf s cl ∧
        lockedOf (submit_withdrawal s m).2 cl = lockedOf s cl) := by
  constructor
  · intro hne
    simp only [submit_deposit, hfound, if_neg hne]
    refine ⟨trivial, trivial, ?_⟩
    intro cl
    exact ⟨upsert_view_avail s m.client cl, upsert_view_held s m.client cl,
      upsert_view_locked s m.client cl⟩
  · intro hne
    simp only [submit_withdrawal, hfound, if_neg hne]
    refine ⟨trivial, trivial, ?_⟩
    intro cl
    exact ⟨upsert_view_avail s m.client cl, upsert_view_held s m.client cl,
      upsert_view_locked s m.client cl⟩

/-- C6 witness: client 2 reuses client 1's deposit id with different content:
both the Deposit and the Withdrawal resubmissions conflict. -/
theorem c6_transaction_id_conflict_witness :
    ((submit_deposit (applyAll WithdrawalDisputePolicy.Deny
        [Command.Deposit { id := 1, client := 1, amount := 50000 }])
        { id := 1, client := 2, amount := 70000 }).1 =
      Except.error DepositError.TransactionIdConflict) ∧
    ((submit_withdrawal (applyAll WithdrawalDisputePolicy.Deny
        [Command.Deposit { id := 1, client := 1, amount := 50000 }])
        { id := 1, client := 2, amount := 70000 }).1 =
      Except.error WithdrawalError.TransactionIdConflict) := by
  have h := c6_transaction_id_conflict
    (applyAll WithdrawalDisputePolicy.Deny
      [Command.Deposit { id := 1, client := 1, amount := 50000 }])
    { id := 1, client := 2, amount := 70000 }
    { tx := Transaction.Deposit { id := 1, client := 1, amount := 50000 },
      state := TransactionState.Valid }
    (by decide)
  exact ⟨(h.1 (by decide)).1, (h.2 (by decide)).1⟩

/-! ### Effects of failed commands (C4) -/

theorem submit_deposit_error_effects (s : MemAccountService) (m : TransactionMeta)
    (e : DepositError) (h : (submit_deposit s m).1 = Except.error e) :
    ((submit_deposit s m).2.transactions = s.transactions ∨
      (alFind s.transactions m.id = none ∧
        (submit_deposit s m).2.transactions =
          alInsert s.transactions m.id
            (TransactionWithState.rejected (Transaction.Deposit m)))) ∧
    ((submit_deposit s m).2.accounts = s.accounts ∨
      (alFind s.accounts m.client = none ∧
        (submit_deposit s m).2.accounts =
          alInsert s.accounts m.client (MemAccount.new m.client))) ∧
    (submit_deposit s m).2.withdrawal_dispute_policy = s.withdrawal_dispute_policy := by
  rcases hop : submit_deposit s m with ⟨r, s2⟩
  rw [hop] at h
  simp only [] at h ⊢
  simp only [submit_deposit] at hop
  split at hop
  · rename_i existing hfound
    split at hop
    · injection hop with h1 h2
      rw [← h1] at h
      cases h
    · injection hop with h1 h2
      subst h2
      exact ⟨Or.inl rfl, upsert_account_cases s.accounts m.client, rfl⟩
  · rename_i hfresh
    split at hop
    · injection hop with h1 h2
      subst h2
      exact ⟨Or.inr ⟨hfresh, rfl⟩, upsert_account_cases s.accounts m.client, rfl⟩
    · split at hop
      · injection hop with h1 h2
        subst h2
        exact ⟨Or.inr ⟨hfresh, rfl⟩, upsert_account_cases s.accounts m.client, rfl⟩
      · injection hop with h1 h2
        rw [← h1] at h
        cases h

theorem submit_withdrawal_error_effects (s : MemAccountService) (m : TransactionMeta)
    (e : WithdrawalError) (h : (submit_withdrawal s m).1 = Except.error e) :
    ((submit_withdrawal s m).2.transactions = s.transactions ∨
      (alFind s.transactions m.id = none ∧
        (submit_withdrawal s m).2.transactions =
          alInsert s.transactions m.id
            (TransactionWithState.rejected (Transaction.Withdrawal m)))) ∧
    ((submit_withdrawal s m).2.accounts = s.accounts ∨
      (alFind s.accounts m.client = none ∧
        (submit_withdrawal s m).2.accounts =
          alInsert s.accounts m.client (MemAccount.new m.client))) ∧
    (submit_withdrawal s m).2.withdrawal_dispute_policy = s.withdrawal_dispute_policy := by
  rcases hop : submit_withdrawal s m with ⟨r, s2⟩
  rw [hop] at h
  simp only [] at h ⊢
  simp only [submit_withdrawal] at hop
  split at hop
  · rename_i existing hfound
    split at hop
    · injection hop with h1 h2
      rw [← h1] at h
      cases h
    · injection hop with h1 h2
      subst h2
      exact ⟨Or.inl rfl, upsert_account_cases s.accounts m.client, rfl⟩
  · rename_i hfresh
    split at hop
    · injection hop with h1 h2
      subst h2
      exact ⟨Or.inr ⟨hfresh, rfl⟩, upsert_account_cases s.accounts m.client, rfl⟩
    · split at hop
      · injection hop with h1 h2
        subst h2
        exact ⟨Or.inr ⟨hfresh, rfl⟩, upsert_account_cases s.accounts m.client, rfl⟩
      · split at hop
        · injection hop with h1 h2
          subst h2
          exact ⟨Or.inr ⟨hfresh, rfl⟩, upsert_account_cases s.accounts m.client, rfl⟩
        · injection hop with h1 h2
          rw [← h1] at h
          cases h

theorem submit_dispute_error_effects (s : MemAccountService) (c : cmd.Dispute)
    (e : DisputeError) (h : (submit_dispute s c).1 = Except.error e) :
    (submit_dispute s c).2.transactions = s.transactions ∧
    ((submit_dispute s c).2.accounts = s.accounts ∨
      (∃ cl : Nat, alFind s.accounts cl = none ∧
        (submit_dispute s c).2.accounts = alInsert s.accounts cl (MemAccount.new cl))) ∧
    (submit_dispute s c).2.withdrawal_dispute_policy = s.withdrawal_dispute_policy := by
  rcases hop : submit_dispute s c with ⟨r, s2⟩
  rw [hop] at h
  simp only [] at h ⊢
  simp only [submit_dispute] at hop
  have hacc2 : ∀ cl : Nat,
      (upsert_account s.accounts cl).2 = s.accounts ∨
      (∃ cl0 : Nat, alFind s.accounts cl0 = none ∧
        (upsert_account s.accounts cl).2 =
          alInsert s.accounts cl0 (MemAccount.new cl0)) := by
    intro cl
    rcases upsert_account_cases s.accounts cl with hc | ⟨hf, hc⟩
    · exact Or.inl hc
    · exact Or.inr ⟨cl, hf, hc⟩
  split at hop
  · injection hop with h1 h2
    subst h2
    exact ⟨rfl, Or.inl rfl, rfl⟩
  · rename_i txws hfound
    split at hop
    · injection hop with h1 h2
      subst h2
      exact ⟨rfl, hacc2 txws.tx.client, rfl⟩
    · split at hop
      · injection hop with h1 h2
        subst h2
        exact ⟨rfl, hacc2 txws.tx.client, rfl⟩
      · split at hop
        · injection hop with h1 h2
          subst h2
          exact ⟨rfl, hacc2 txws.tx.client, rfl⟩
        · injection hop with h1 h2
          rw [← h1] at h
          cases h
        · split at hop
          · injection hop with h1 h2
            subst h2
            exact ⟨rfl, hacc2 txws.tx.client, rfl⟩
          · split at hop
            · injection hop with h1 h2
              subst h2
              exact ⟨rfl, hacc2 txws.tx.client, rfl⟩
            · injection hop with h1 h2
              rw [← h1] at h
              cases h

theorem submit_resolve_error_effects (s : MemAccountService) (c : cmd.Resolve)
    (e : ResolveError) (h : (submit_resolve s c).1 = Except.error e) :
    (submit_resolve s c).2.transactions = s.transactions ∧
    ((submit_resolve s c).2.accounts = s.accounts ∨
      (∃ cl : Nat, alFind s.accounts cl = none ∧
        (submit_resolve s c).2.accounts = alInsert s.accounts cl (MemAccount.new cl))) ∧
    (submit_resolve s c).2.withdrawal_dispute_policy = s.withdrawal_dispute_policy := by
  rcases hop : submit_resolve s c with ⟨r, s2⟩
  rw [hop] at h
  simp only [] at h ⊢
  simp only [submit_resolve] at hop
  have hacc2 : ∀ cl : Nat,
      (upsert_account s.accounts cl).2 = s.accounts ∨
      (∃ cl0 : Nat, alFind s.accounts cl0 = none ∧
        (upsert_account s.accounts cl).2 =
          alInsert s.accounts cl0 (MemAccount.new cl0)) := by
    intro cl
    rcases upsert_account_cases s.accounts cl with hc | ⟨hf, hc⟩
    · exact Or.inl hc
    · exact Or.inr ⟨cl, hf, hc⟩
  split at hop
  · injection hop with h1 h2
    subst h2
    exact ⟨rfl, Or.inl rfl, rfl⟩
  · rename_i txws hfound
    split at hop
    · injection hop with h1 h2
      subst h2
      exact ⟨rfl, hacc2 txws.tx.client, rfl⟩
    · split at hop
      · injection hop with h1 h2
        subst h2
        exact ⟨rfl, hacc2 txws.tx.client, rfl⟩
      · split at hop
        · injection hop with h1 h2
          subst h2
          exact ⟨rfl, hacc2 txws.tx.client, rfl⟩
        · injection hop with h1 h2
          rw [← h1] at h
          cases h
        · split at hop
          · injection hop with h1 h2
            subst h2
            exact ⟨rfl, hacc2 txws.tx.client, rfl⟩
          · injection hop with h1 h2
            rw [← h1] at h
            cases h

theorem submit_chargeback_error_effects (s : MemAccountService) (c : cmd.Chargeback)
    (e : ChargebackError) (h : (submit_chargeback s c).1 = Except.error e) :
    (submit_chargeback s c).2.transactions = s.transactions ∧
    ((submit_chargeback s c).2.accounts = s.accounts ∨
      (∃ cl : Nat, alFind s.accounts cl = none ∧
        (submit_chargeback s c).2.accounts = alInsert s.accounts cl (MemAccount.new cl))) ∧
    (submit_chargeback s c).2.withdrawal_dispute_policy = s.withdrawal_dispute_policy := by
  rcases hop : submit_chargeback s c with ⟨r, s2⟩
  rw [hop] at h
  simp only [] at h ⊢
  simp only [submit_chargeback] at hop
  have hacc2 : ∀ cl : Nat,
      (upsert_account s.accounts cl).2 = s.accounts ∨
      (∃ cl0 : Nat, alFind s.accounts cl0 = none ∧
        (upsert_account s.accounts cl).2 =
          alInsert s.accounts cl0 (MemAccount.new cl0)) := by
    intro cl
    rcases upsert_account_cases s.accounts cl with hc | ⟨hf, hc⟩
    · exact Or.inl hc
    · exact Or.inr ⟨cl, hf, hc⟩
  split at hop
  · injection hop with h1 h2
    subst h2
    exact ⟨rfl, Or.inl rfl, rfl⟩
  · rename_i txws hfound
    split at hop
    · injection hop with h1 h2
      subst h2
      exact ⟨rfl, hacc2 txws.tx.client, rfl⟩
    · split at hop
      · injection hop with h1 h2
        subst h2
        exact ⟨rfl, hacc2 txws.tx.client, rfl⟩
      · split at hop
        · injection hop with h1 h2
          subst h2
          exact ⟨rfl, hacc2 txws.tx.client, rfl⟩
        · injection hop with h1 h2
          subst h2
          exact ⟨rfl, hacc2 txws.tx.client, rfl⟩
        · split at hop
          · injection hop with h1 h2
            subst h2
            exact ⟨rfl, hacc2 txws.tx.client, rfl⟩
          · split at hop
            · injection hop with h1 h2
              subst h2
              exact ⟨rfl, hacc2 txws.tx.client, rfl⟩
            · injection hop with h1 h2
              rw [← h1] at h
              cases h

theorem find_preserved_of_accounts_cases {accounts accounts2 : List (Nat × MemAccount)}
    (hc : accounts2 = accounts ∨
      ∃ cl0 : Nat, alFind accounts cl0 = none ∧
        accounts2 = alInsert accounts cl0 (MemAccount.new cl0))
    (cl : Nat) (a : MemAccount) (hfind : alFind accounts cl = some a) :
    alFind accounts2 cl = some a := by
  rcases hc with hc | ⟨cl0, hf, hc⟩
  · rw [hc]
    exact hfind
  · rw [hc]
    by_cases he : cl0 = cl
    · subst he
      rw [hf] at hfind
      cases hfind
    · rw [alFind_alInsert_ne _ _ _ _ he]
      exact hfind

/-- C4 counterexample: on an empty engine the withdrawal `Withdrawal(tx=1,
client=1, amount=1.0000)` fails with `InsufficientAssets`, yet the accounts
map is no longer empty afterwards — the failed command created account 1.
This refutes the claim that no failed command creates an account. -/
theorem c4_counterexample :
    (submit_withdrawal
        (MemAccountService.new WithdrawalDisputePolicy.IfMoreAvailableThanDisputed)
        { id := 1, client := 1, amount := 10000 }).1 =
      Except.error WithdrawalError.InsufficientAssets ∧
    (MemAccountService.new WithdrawalDisputePolicy.IfMoreAvailableThanDisputed).accounts
      = [] ∧
    (submit_withdrawal
        (MemAccountService.new WithdrawalDisputePolicy.IfMoreAvailableThanDisputed)
        { id := 1, client := 1, amount := 10000 }).2.accounts =
      [(1, MemAccount.new 1)] := by
  refine ⟨by decide, rfl, by decide⟩

/-- C4 (amended): after any failed command the transactions map is unchanged
except that a failed Deposit/Withdrawal with a fresh id records a `Rejected`
stub, and the accounts map is unchanged except that the get-or-create step
may add one fresh account (zero balance, unlocked) for the referenced client;
in particular every pre-existing account record (balance and lock flag) is
untouched and the policy is unchanged. -/
theorem c4_failed_command_effects (s : MemAccountService) (c : Command) (e : SubmitError)
    (h : (s.submit c).1 = Except.error e) :
    ((s.submit c).2.transactions = s.transactions ∨
      (∃ m : TransactionMeta,
        (c = Command.Deposit m ∧ alFind s.transactions m.id = none ∧
          (s.submit c).2.transactions =
            alInsert s.transactions m.id
              (TransactionWithState.rejected (Transaction.Deposit m))) ∨
        (c = Command.Withdrawal m ∧ alFind s.transactions m.id = none ∧
          (s.submit c).2.transactions =
            alInsert s.transactions m.id
              (TransactionWithState.rejected (Transaction.Withdrawal m))))) ∧
    ((s.submit c).2.accounts = s.accounts ∨
      (∃ cl : Nat, alFind s.accounts cl = none ∧
        (s.submit c).2.accounts = alInsert s.accounts cl (MemAccount.new cl))) ∧
    (∀ cl a, alFind s.accounts cl = some a →
      alFind (s.submit c).2.accounts cl = some a) ∧
    (s.submit c).2.withdrawal_dispute_policy = s.withdrawal_dispute_policy := by
  cases c with
  | Deposit m =>
    rcases hop : submit_deposit s m with ⟨r, s2⟩
    have hsub : MemAccountService.submit s (Command.Deposit m) =
        match submit_deposit s m with
        | (Except.ok _, s2) => (Except.ok (), s2)
        | (Except.error e, s2) => (Except.error (SubmitError.Deposit e), s2) := rfl
    rw [hop] at hsub
    cases r with
    | ok u =>
      rw [hsub] at h
      cases h
    | error e0 =>
      have h0 : (submit_deposit s m).1 = Except.error e0 := by rw [hop]
      have he := submit_deposit_error_effects s m e0 h0
      rw [hop] at he
      rw [hsub]
      simp only [] at he ⊢
      refine ⟨?_, ?_, ?_, he.2.2⟩
      · rcases he.1 with h1 | h1
        · exact Or.inl h1
        · exact Or.inr ⟨m, Or.inl ⟨rfl, h1.1, h1.2⟩⟩
      · rcases he.2.1 with h1 | h1
        · exact Or.inl h1
        · exact Or.inr ⟨m.client, h1.1, h1.2⟩
      · intro cl a hfind
        refine find_preserved_of_accounts_cases ?_ cl a hfind
        rcases he.2.1 with h1 | h1
        · exact Or.inl h1
        · exact Or.inr ⟨m.client, h1.1, h1.2⟩
  | Withdrawal m =>
    rcases hop : submit_withdrawal s m with ⟨r, s2⟩
    have hsub : MemAccountService.submit s (Command.Withdrawal m) =
        match submit_withdrawal s m with
        | (Except.ok _, s2) => (Except.ok (), s2)
        | (Except.error e, s2) => (Except.error (SubmitError.Withdrawal e), s2) := rfl
    rw [hop] at hsub
    cases r with
    | ok u =>
      rw [hsub] at h
      cases h
    | error e0 =>
      have h0 : (submit_withdrawal s m).1 = Except.error e0 := by rw [hop]
      have he := submit_withdrawal_error_effects s m e0 h0
      rw [hop] at he
      rw [hsub]
      simp only [] at he ⊢
      refine ⟨?_, ?_, ?_, he.2.2⟩
      · rcases he.1 with h1 | h1
        · exact Or.inl h1
        · exact Or.inr ⟨m, Or.inr ⟨rfl, h1.1, h1.2⟩⟩
      · rcases he.2.1 with h1 | h1
        · exact Or.inl h1
        · exact Or.inr ⟨m.client, h1.1, h1.2⟩
      · intro cl a hfind
        refine find_preserved_of_accounts_cases ?_ cl a hfind
        rcases he.2.1 with h1 | h1
        · exact Or.inl h1
        · exact Or.inr ⟨m.client, h1.1, h1.2⟩
  | Dispute c =>
    rcases hop : submit_dispute s c with ⟨r, s2⟩
    have hsub : MemAccountService.submit s (Command.Dispute c) =
        match submit_dispute s c with
        | (Except.ok _, s2) => (Except.ok (), s2)
        | (Except.error e, s2) => (Except.error (SubmitError.Dispute e), s2) := rfl
    rw [hop] at hsub
    cases r with
    | ok u =>
      rw [hsub] at h
      cases h
    | error e0 =>
      have h0 : (submit_dispute s c).1 = Except.error e0 := by rw [hop]
      have he := submit_dispute_error_effects s c e0 h0
      rw [hop] at he
      rw [hsub]
      simp only [] at he ⊢
      exact ⟨Or.inl he.1, he.2.1,
        fun cl a hfind => find_preserved_of_accounts_cases he.2.1 cl a hfind, he.2.2⟩
  | Resolve c =>
    rcases hop : submit_resolve s c with ⟨r, s2⟩
    have hsub : MemAccountService.submit s (Command.Resolve c) =
        match submit_resolve s c with
        | (Except.ok _, s2) => (Except.ok (), s2)
        | (Except.error e, s2) => (Except.error (SubmitError.Resolve e), s2) := rfl
    rw [hop] at hsub
    cases r with
    | ok u =>
      rw [hsub] at h
      cases h
    | error e0 =>
      have h0 : (submit_resolve s c).1 = Except.error e0 := by rw [hop]
      have he := submit_resolve_error_effects s c e0 h0
      rw [hop] at he
      rw [hsub]
      simp only [] at he ⊢
      exact ⟨Or.inl he.1, he.2.1,
        fun cl a hfind => find_preserved_of_accounts_cases he.2.1 cl a hfind, he.2.2⟩
  | Chargeback c =>
    rcases hop : submit_chargeback s c with ⟨r, s2⟩
    have hsub : MemAccountService.submit s (Command.Chargeback c) =
        match submit_chargeback s c with
        | (Except.ok _, s2) => (Except.ok (), s2)
        | (Except.error e, s2) => (Except.error (SubmitError.Chargeback e), s2) := rfl
    rw [hop] at hsub
    cases r with
    | ok u =>
      rw [hsub] at h
      cases h
    | error e0 =>
      have h0 : (submit_chargeback s c).1 = Except.error e0 := by rw [hop]
      have he := submit_chargeback_error_effects s c e0 h0
      rw [hop] at he
      rw [hsub]
      simp only [] at he ⊢
      exact ⟨Or.inl he.1, he.2.1,
        fun cl a hfind => find_preserved_of_accounts_cases he.2.1 cl a hfind, he.2.2⟩

/-- C4 witness: the failed withdrawal of the counterexample instantiates the
amended statement. -/
theorem c4_failed_command_effects_witness :
    (((MemAccountService.new WithdrawalDisputePolicy.IfMoreAvailableThanDisputed).submit
        (Command.Withdrawal { id := 1, client := 1, amount := 10000 })).2.transactions =
      (MemAccountService.new
        WithdrawalDisputePolicy.IfMoreAvailableThanDisputed).transactions ∨
      (∃ m : TransactionMeta,
        (Command.Withdrawal { id := 1, client := 1, amount := 10000 } =
            Command.Deposit m ∧
          alFind (MemAccountService.new
            WithdrawalDisputePolicy.IfMoreAvailableThanDisputed).transactions m.id =
            none ∧
          ((MemAccountService.new
              WithdrawalDisputePolicy.IfMoreAvailableThanDisputed).submit
            (Command.Withdrawal { id := 1, client := 1, amount := 10000 })).2.transactions =
            alInsert (MemAccountService.new
              WithdrawalDisputePolicy.IfMoreAvailableThanDisputed).transactions m.id
              (TransactionWithState.rejected (Transaction.Deposit m))) ∨
        (Command.Withdrawal { id := 1, client := 1, amount := 10000 } =
            Command.Withdrawal m ∧
          alFind (MemAccountService.new
            WithdrawalDisputePolicy.IfMoreAvailableThanDisputed).transactions m.id =
            none ∧
          ((MemAccountService.new
              WithdrawalDisputePolicy.IfMoreAvailableThanDisputed).submit
            (Command.Withdrawal { id := 1, client := 1, amount := 10000 })).2.transactions =
            alInsert (MemAccountService.new
              WithdrawalDisputePolicy.IfMoreAvailableThanDisputed).transactions m.id
              (TransactionWithState.rejected (Transaction.Withdrawal m))))) ∧
    (((MemAccountService.new WithdrawalDisputePolicy.IfMoreAvailableThanDisputed).submit
        (Command.Withdrawal { id := 1, client := 1, amount := 10000 })).2.accounts =
      (MemAccountService.new
        WithdrawalDisputePolicy.IfMoreAvailableThanDisputed).accounts ∨
      (∃ cl : Nat,
        alFind (MemAccountService.new
          WithdrawalDisputePolicy.IfMoreAvailableThanDisputed).accounts cl = none ∧
        ((MemAccountService.new
            WithdrawalDisputePolicy.IfMoreAvailableThanDisputed).submit
          (Command.Withdrawal { id := 1, client := 1, amount := 10000 })).2.accounts =
          alInsert (MemAccountService.new
            WithdrawalDisputePolicy.IfMoreAvailableThanDisputed).accounts cl
            (MemAccount.new cl))) ∧
    (∀ cl a,
      alFind (MemAccountService.new
        WithdrawalDisputePolicy.IfMoreAvailableThanDisputed).accounts cl = some a →
      alFind ((MemAccountService.new
          WithdrawalDisputePolicy.IfMoreAvailableThanDisputed).submit
        (Command.Withdrawal { id := 1, client := 1, amount := 10000 })).2.accounts cl =
        some a) ∧
    (((MemAccountService.new WithdrawalDisputePolicy.IfMoreAvailableThanDisputed).submit
        (Command.Withdrawal { id := 1, client := 1, amount := 10000 })).2.withdrawal_dispute_policy =
      (MemAccountService.new
        WithdrawalDisputePolicy.IfMoreAvailableThanDisputed).withdrawal_dispute_policy) :=
  c4_failed_command_effects
    (MemAccountService.new WithdrawalDisputePolicy.IfMoreAvailableThanDisputed)
    (Command.Withdrawal { id := 1, client := 1, amount := 10000 })
    (SubmitError.Withdrawal WithdrawalError.InsufficientAssets)
    (by decide)

/-- C7: for Dispute, Resolve and Chargeback on an existing transaction, a
claimant different from the transaction's account owner fails with
`InvalidClaimant{owner, claimant}` — before any lock or state check — and
the engine state is unchanged. -/
theorem c7_invalid_claimant (p : WithdrawalDisputePolicy) (cmds : List Command)
    (cl k : Nat) (txws : TransactionWithState)
    (htx : alFind (applyAll p cmds).transactions k = some txws)
    (hne : cl ≠ txws.tx.client) :
    submit_dispute (applyAll p cmds) { client := cl, tx := k } =
      (Except.error (DisputeError.InvalidClaimant txws.tx.client cl), applyAll p cmds) ∧
    submit_resolve (applyAll p cmds) { client := cl, tx := k } =
      (Except.error (ResolveError.InvalidClaimant txws.tx.client cl), applyAll p cmds) ∧
    submit_chargeback (applyAll p cmds) { client := cl, tx := k } =
      (Except.error (ChargebackError.InvalidClaimant txws.tx.client cl),
        applyAll p cmds) := by
  have hInv := inv_applyAll p cmds
  have hsome := hInv.tx_owner (k, txws) (alFind_mem htx)
  rcases hacc : alFind (applyAll p cmds).accounts txws.tx.client with _ | account
  · rw [hacc] at hsome
    cases hsome
  · have haid : account.id = txws.tx.client :=
      hInv.acc_key (txws.tx.client, account) (alFind_mem hacc)
    have hne2 : cl ≠ account.id := by
      rw [haid]
      exact hne
    refine ⟨?_, ?_, ?_⟩
    · simp only [submit_dispute, htx, upsert_account_found hacc, if_pos hne2]
      rw [haid]
    · simp only [submit_resolve, htx, upsert_account_found hacc, if_pos hne2]
      rw [haid]
    · simp only [submit_chargeback, htx, upsert_account_found hacc, if_pos hne2]
      rw [haid]

/-- C7 witness: client 2 disputing / resolving / charging back client 1's
deposit gets `InvalidClaimant{owner := 1, claimant := 2}` and the state is
untouched. -/
theorem c7_invalid_claimant_witness :
    submit_dispute (applyAll WithdrawalDisputePolicy.IfMoreAvailableThanDisputed
        [Command.Deposit { id := 1, client := 1, amount := 50000 }])
        { client := 2, tx := 1 } =
      (Except.error (DisputeError.InvalidClaimant 1 2),
        applyAll WithdrawalDisputePolicy.IfMoreAvailableThanDisputed
          [Command.Deposit { id := 1, client := 1, amount := 50000 }]) ∧
    submit_resolve (applyAll WithdrawalDisputePolicy.IfMoreAvailableThanDisputed
        [Command.Deposit { id := 1, client := 1, amount := 50000 }])
        { client := 2, tx := 1 } =
      (Except.error (ResolveError.InvalidClaimant 1 2),
        applyAll WithdrawalDisputePolicy.IfMoreAvailableThanDisputed
          [Command.Deposit { id := 1, client := 1, amount := 50000 }]) ∧
    submit_chargeback (applyAll WithdrawalDisputePolicy.IfMoreAvailableThanDisputed
        [Command.Deposit { id := 1, client := 1, amount := 50000 }])
        { client := 2, tx := 1 } =
      (Except.error (ChargebackError.InvalidClaimant 1 2),
        applyAll WithdrawalDisputePolicy.IfMoreAvailableThanDisputed
          [Command.Deposit { id := 1, client := 1, amount := 50000 }]) :=
  c7_invalid_claimant WithdrawalDisputePolicy.IfMoreAvailableThanDisputed
    [Command.Deposit { id := 1, client := 1, amount := 50000 }]
    2 1
    { tx := Transaction.Deposit { id := 1, client := 1, amount := 50000 },
      state := TransactionState.Valid }
    (by decide) (by decide)

/-- C8: behaviour of Dispute on an existing transaction with matching
claimant and unlocked account, in any reachable state: a Dispute on an
already-Disputed transaction is a no-op success; on a Valid Deposit with
`available < amount` it fails with `InsufficientAssets`; on a Valid
Withdrawal under policy `Deny` it fails with `WithdrawalDisputeDenied`;
otherwise (Valid, `amount ≤ available`, and Deposit or policy
`IfMoreAvailableThanDisputed`) the amount moves from available to held and
the state becomes Disputed. -/
theorem c8_dispute_behavior (p : WithdrawalDisputePolicy) (cmds : List Command)
    (cl k : Nat) (txws : TransactionWithState) (account : MemAccount)
    (htx : alFind (applyAll p cmds).transactions k = some txws)
    (hacc : alFind (applyAll p cmds).accounts txws.tx.client = some account)
    (hcl : cl = txws.tx.client)
    (hlock : account.locked = false) :
    (txws.state = TransactionState.Disputed →
      submit_dispute (applyAll p cmds) { client := cl, tx := k } =
        (Except.ok (), applyAll p cmds)) ∧
    (txws.state = TransactionState.Valid →
      (∀ m, txws.tx = Transaction.Deposit m →
        account.balance.available < txws.tx.amount →
        submit_dispute (applyAll p cmds) { client := cl, tx := k } =
          (Except.error DisputeError.InsufficientAssets, applyAll p cmds)) ∧
      (∀ m, txws.tx = Transaction.Withdrawal m →
        (applyAll p cmds).withdrawal_dispute_policy = WithdrawalDisputePolicy.Deny →
        submit_dispute (applyAll p cmds) { client := cl, tx := k } =
          (Except.error DisputeError.WithdrawalDisputeDenied, applyAll p cmds)) ∧
      (txws.tx.amount ≤ account.balance.available →
        ((∃ m, txws.tx = Transaction.Deposit m) ∨
          (applyAll p cmds).withdrawal_dispute_policy =
            WithdrawalDisputePolicy.IfMoreAvailableThanDisputed) →
        submit_dispute (applyAll p cmds) { client := cl, tx := k } =
          (Except.ok (),
            { applyAll p cmds with
                accounts := alInsert (applyAll p cmds).accounts txws.tx.client
                  { account with balance :=
                      { available := account.balance.available - txws.tx.amount,
                        held := account.balance.held + txws.tx.amount } },
                transactions := alInsert (applyAll p cmds).transactions k
                  { txws with state := TransactionState.Disputed } }))) := by
  have hInv := inv_applyAll p cmds
  have haid : account.id = txws.tx.client :=
    hInv.acc_key (txws.tx.client, account) (alFind_mem hacc)
  have hne2 : ¬ (cl ≠ account.id) := by
    rw [haid, hcl]
    intro hh
    exact hh rfl
  have hlock2 : ¬ (account.locked = true) := by
    rw [hlock]
    intro hh
    cases hh
  refine ⟨?_, ?_⟩
  · intro hst
    simp only [submit_dispute, htx, upsert_account_found hacc, if_neg hne2,
      if_neg hlock2, hst]
  · intro hst
    refine ⟨?_, ?_, ?_⟩
    · intro m htx2 hlt
      have hdec : decide (txws.tx.amount ≤ account.balance.available) = false :=
        decide_eq_false (by omega)
      rw [htx2] at hdec
      simp only [submit_dispute, htx, upsert_account_found hacc, if_neg hne2,
        if_neg hlock2, hst]
      simp only [htx2, hdec]
      rfl
    · intro m htx2 hpol
      simp only [submit_dispute, htx, upsert_account_found hacc, if_neg hne2,
        if_neg hlock2, hst]
      simp only [htx2, hpol]
      rw [← hpol]
    · intro hle hor
      have hbal : account.balance.available + account.balance.held ≤ U64_MAX :=
        hInv.bal_ok (txws.tx.client, account) (alFind_mem hacc)
      have hmv : AccountBalance.move_available_to_held account.balance txws.tx.amount =
          some { available := account.balance.available - txws.tx.amount,
                 held := account.balance.held + txws.tx.amount } :=
        AccountBalance.move_available_to_held_some_iff.mpr
          ⟨hle, by omega, by omega, rfl⟩
      have hdec : decide (txws.tx.amount ≤ account.balance.available) = true :=
        decide_eq_true hle
      rcases htxk : txws.tx with m | m
      · rw [htxk] at hdec hmv
        simp only [submit_dispute, htx, upsert_account_found hacc, if_neg hne2,
          if_neg hlock2, hst]
        simp only [htxk, hdec, hmv]
        rfl
      · rcases hor with ⟨m2, htx2⟩ | hpol
        · rw [htxk] at htx2
          cases htx2
        · rw [htxk] at hdec hmv
          simp only [submit_dispute, htx, upsert_account_found hacc, if_neg hne2,
            if_neg hlock2, hst]
          simp only [htxk, hpol, hdec, hmv]
          rfl

/-- C8 witness: disputing a valid deposit of `10.0000` with sufficient
available assets moves the amount to held and marks the transaction
Disputed. -/
theorem c8_dispute_behavior_witness :
    submit_dispute (applyAll WithdrawalDisputePolicy.IfMoreAvailableThanDisputed
        [Command.Deposit { id := 1, client := 1, amount := 100000 }])
        { client := 1, tx := 1 } =
      (Except.ok (),
        { applyAll WithdrawalDisputePolicy.IfMoreAvailableThanDisputed
            [Command.Deposit { id := 1, client := 1, amount := 100000 }] with
            accounts := alInsert
              (applyAll WithdrawalDisputePolicy.IfMoreAvailableThanDisputed
                [Command.Deposit { id := 1, client := 1, amount := 100000 }]).accounts 1
              { id := 1, locked := false,
                balance := { available := 100000 - 100000, held := 0 + 100000 } },
            transactions := alInsert
              (applyAll WithdrawalDisputePolicy.IfMoreAvailableThanDisputed
                [Command.Deposit { id := 1, client := 1, amount := 100000 }]).transactions 1
              { tx := Transaction.Deposit { id := 1, client := 1, amount := 100000 },
                state := TransactionState.Disputed } }) := by
  have h := c8_dispute_behavior WithdrawalDisputePolicy.IfMoreAvailableThanDisputed
    [Command.Deposit { id := 1, client := 1, amount := 100000 }]
    1 1
    { tx := Transaction.Deposit { id := 1, client := 1, amount := 100000 },
      state := TransactionState.Valid }
    { id := 1, locked := false, balance := { available := 100000, held := 0 } }
    (by decide) (by decide) (by decide) (by decide)
  exact (h.2 rfl).2.2 (by decide)
    (Or.inl ⟨{ id := 1, client := 1, amount := 100000 }, rfl⟩)

/-- C3: behaviour of Chargeback on an existing transaction with matching
claimant and unlocked account, in any reachable state: state Valid fails
with `NonDisputed`; state Rejected is a no-op success; a Disputed Deposit
has the disputed amount removed from held, available unchanged, the
transaction becomes Rejected and the account locked.  Scenario C yields
account 1 with available 0, held 0, locked. -/
theorem c3_chargeback_behavior (p : WithdrawalDisputePolicy) (cmds : List Command)
    (cl k : Nat) (txws : TransactionWithState) (account : MemAccount)
    (htx : alFind (applyAll p cmds).transactions k = some txws)
    (hacc : alFind (applyAll p cmds).accounts txws.tx.client = some account)
    (hcl : cl = txws.tx.client)
    (hlock : account.locked = false) :
    (txws.state = TransactionState.Valid →
      submit_chargeback (applyAll p cmds) { client := cl, tx := k } =
        (Except.error (ChargebackError.NonDisputed k), applyAll p cmds)) ∧
    (txws.state = TransactionState.Rejected →
      submit_chargeback (applyAll p cmds) { client := cl, tx := k } =
        (Except.ok (), applyAll p cmds)) ∧
    (∀ m, txws.state = TransactionState.Disputed →
      txws.tx = Transaction.Deposit m →
      submit_chargeback (applyAll p cmds) { client := cl, tx := k } =
        (Except.ok (),
          { applyAll p cmds with
              accounts := alInsert (applyAll p cmds).accounts txws.tx.client
                { account with
                  locked := true,
                  balance := { available := account.balance.available, held := account.balance.held - txws.tx.amount } },
              transactions := alInsert (applyAll p cmds).transactions k
                { txws with state := TransactionState.Rejected } })) ∧
    (availOf (applyAll WithdrawalDisputePolicy.IfMoreAvailableThanDisputed
        [Command.Deposit { id := 1, client := 1, amount := 100000 },
         Command.Dispute { client := 1, tx := 1 },
         Command.Chargeback { client := 1, tx := 1 }]) 1 = 0 ∧
      heldOf (applyAll WithdrawalDisputePolicy.IfMoreAvailableThanDisputed
        [Command.Deposit { id := 1, client := 1, amount := 100000 },
         Command.Dispute { client := 1, tx := 1 },
         Command.Chargeback { client := 1, tx := 1 }]) 1 = 0 ∧
      lockedOf (applyAll WithdrawalDisputePolicy.IfMoreAvailableThanDisputed
        [Command.Deposit { id := 1, client := 1, amount := 100000 },
         Command.Dispute { client := 1, tx := 1 },
         Command.Chargeback { client := 1, tx := 1 }]) 1 = true) := by
  have hInv := inv_applyAll p cmds
  have haid : account.id = txws.tx.client :=
    hInv.acc_key (txws.tx.client, account) (alFind_mem hacc)
  have hne2 : ¬ (cl ≠ account.id) := by
    rw [haid, hcl]
    intro hh
    exact hh rfl
  have hlock2 : ¬ (account.locked = true) := by
    rw [hlock]
    intro hh
    cases hh
  refine ⟨?_, ?_, ?_, by decide, by decide, by decide⟩
  · intro hst
    simp only [submit_chargeback, htx, upsert_account_found hacc, if_neg hne2,
      if_neg hlock2, hst]
  · intro hst
    simp only [submit_chargeback, htx, upsert_account_found hacc, if_neg hne2,
      if_neg hlock2, hst]
  · intro m hst htx2
    have hheld : account.balance.held =
        disputedSum (applyAll p cmds).transactions txws.tx.client :=
      hInv.held_sum (txws.tx.client, account) (alFind_mem hacc)
    have hcontrib : txContrib txws.tx.client txws = txws.tx.amount := by
      simp [txContrib, hst]
    have hsumle : txContrib txws.tx.client txws ≤
        disputedSum (applyAll p cmds).transactions txws.tx.client :=
      txContrib_le_disputedSum (alFind_mem htx) txws.tx.client
    have hle : txws.tx.amount ≤ account.balance.held := by
      omega
    have hbal : account.balance.available + account.balance.held ≤ U64_MAX :=
      hInv.bal_ok (txws.tx.client, account) (alFind_mem hacc)
    have hsub : checked_sub account.balance.held txws.tx.amount =
        some (account.balance.held - txws.tx.amount) := checked_sub_eq_some hle
    have hupd : AccountBalance.update account.balance.available
        (account.balance.held - txws.tx.amount) =
        some { available := account.balance.available,
               held := account.balance.held - txws.tx.amount } :=
      AccountBalance.update_some_iff.mpr ⟨by omega, rfl⟩
    rw [htx2] at hsub hupd
    simp only [submit_chargeback, htx, upsert_account_found hacc, if_neg hne2,
      if_neg hlock2, hst]
    simp only [htx2, hsub, hupd]

/-- C3 witness: Scenario C's chargeback of the disputed deposit removes the
amount from held, leaves available unchanged, rejects the transaction and
locks the account. -/
theorem c3_chargeback_behavior_witness :
    submit_chargeback (applyAll WithdrawalDisputePolicy.IfMoreAvailableThanDisputed
        [Command.Deposit { id := 1, client := 1, amount := 100000 },
         Command.Dispute { client := 1, tx := 1 }])
        { client := 1, tx := 1 } =
      (Except.ok (),
        { applyAll WithdrawalDisputePolicy.IfMoreAvailableThanDisputed
            [Command.Deposit { id := 1, client := 1, amount := 100000 },
             Command.Dispute { client := 1, tx := 1 }] with
            accounts := alInsert
              (applyAll WithdrawalDisputePolicy.IfMoreAvailableThanDisputed
                [Command.Deposit { id := 1, client := 1, amount := 100000 },
                 Command.Dispute { client := 1, tx := 1 }]).accounts 1
              { id := 1, locked := true,
                balance := { available := 0, held := 100000 - 100000 } },
            transactions := alInsert
              (applyAll WithdrawalDisputePolicy.IfMoreAvailableThanDisputed
                [Command.Deposit { id := 1, client := 1, amount := 100000 },
                 Command.Dispute { client := 1, tx := 1 }]).transactions 1
              { tx := Transaction.Deposit { id := 1, client := 1, amount := 100000 },
                state := TransactionState.Rejected } }) := by
  have h := c3_chargeback_behavior WithdrawalDisputePolicy.IfMoreAvailableThanDisputed
    [Command.Deposit { id := 1, client := 1, amount := 100000 },
     Command.Dispute { client := 1, tx := 1 }]
    1 1
    { tx := Transaction.Deposit { id := 1, client := 1, amount := 100000 },
      state := TransactionState.Disputed }
    { id := 1, locked := false, balance := { available := 0, held := 100000 } }
    (by decide) (by decide) (by decide) (by decide)
  obtain ⟨h1, h2, h3, h4⟩ := h
  exact h3 { id := 1, client := 1, amount := 100000 } rfl rfl

/-! ### Fixed-decimal format/parse lemmas (C9) -/

theorem foldAcc_nil (a : Nat) : foldAcc a [] = a := rfl

theorem foldAcc_cons (a : Nat) (c : Char) (l : List Char) :
    foldAcc a (c :: l) = foldAcc (a * 10 + (c.toNat - 48)) l := rfl

theorem foldAcc_append (a : Nat) (l1 l2 : List Char) :
    foldAcc a (l1 ++ l2) = foldAcc (foldAcc a l1) l2 := by
  simp [foldAcc, List.foldl_append]

theorem le_foldAcc (l : List Char) : ∀ a : Nat, a ≤ foldAcc a l := by
  induction l with
  | nil =>
    intro a
    exact Nat.le_refl a
  | cons c l ih =>
    intro a
    calc a ≤ a * 10 + (c.toNat - 48) := by omega
    _ ≤ foldAcc (a * 10 + (c.toNat - 48)) l := by
      rw [← foldAcc_cons a c l]
      rw [foldAcc_cons]
      exact ih _

theorem digitChar_toNat {d : Nat} (h : d < 10) : (digitChar d).toNat = 48 + d := by
  interval_cases d <;> decide

theorem digitChar_bounds {d : Nat} (h : d < 10) :
    48 ≤ (digitChar d).toNat ∧ (digitChar d).toNat ≤ 57 := by
  rw [digitChar_toNat h]
  omega

theorem foldAcc_digits (L : List Nat) : ∀ a : Nat, (∀ d ∈ L, d < 10) →
    foldAcc a (L.reverse.map digitChar) = a * 10 ^ L.length + Nat.ofDigits 10 L := by
  induction L with
  | nil =>
    intro a _
    simp [foldAcc, Nat.ofDigits_nil]
  | cons d L ih =>
    intro a hL
    have hrev : (d :: L).reverse.map digitChar =
        (L.reverse.map digitChar) ++ [digitChar d] := by
      simp
    have hd : d < 10 := hL d (List.mem_cons_self d L)
    rw [hrev, foldAcc_append, ih a (fun x hx => hL x (List.mem_cons_of_mem d hx)),
      foldAcc_cons, foldAcc_nil, digitChar_toNat hd]
    have hsub : 48 + d - 48 = d := by omega
    rw [hsub, Nat.ofDigits_cons]
    simp only [List.length_cons, Nat.cast_id]
    ring

theorem natDigitsChars_ne_nil (m : Nat) : natDigitsChars m ≠ [] := by
  by_cases h : m = 0
  · simp [natDigitsChars, h]
  · simp only [natDigitsChars, if_neg h]
    intro hc
    have hnil : Nat.digits 10 m ≠ [] := Nat.digits_ne_nil_iff_ne_zero.mpr h
    simp only [List.map_eq_nil_iff, List.reverse_eq_nil_iff] at hc
    exact hnil hc

theorem natDigitsChars_isEmpty (m : Nat) : (natDigitsChars m).isEmpty = false := by
  rcases h : natDigitsChars m with _ | ⟨a, l⟩
  · exact absurd h (natDigitsChars_ne_nil m)
  · rfl

theorem natDigitsChars_all_digits (m : Nat) :
    ∀ c ∈ natDigitsChars m, 48 ≤ c.toNat ∧ c.toNat ≤ 57 := by
  intro c hc
  by_cases h : m = 0
  · rw [natDigitsChars, if_pos h] at hc
    simp only [List.mem_singleton] at hc
    rw [hc]
    decide
  · rw [natDigitsChars, if_neg h] at hc
    simp only [List.mem_map, List.mem_reverse] at hc
    obtain ⟨d, hd, hdc⟩ := hc
    have hlt : d < 10 := Nat.digits_lt_base (by norm_num) hd
    rw [← hdc]
    exact digitChar_bounds hlt

theorem foldAcc_natDigitsChars (a m : Nat) :
    foldAcc a (natDigitsChars m) = a * 10 ^ (natDigitsChars m).length + m := by
  by_cases h : m = 0
  · subst h
    rw [natDigitsChars, if_pos rfl, foldAcc_cons, foldAcc_nil]
    have h48 : (digitChar 0).toNat = 48 := by decide
    rw [h48]
    simp
  · rw [natDigitsChars, if_neg h,
      foldAcc_digits (Nat.digits 10 m) a
        (fun d hd => Nat.digits_lt_base (by norm_num) hd),
      Nat.ofDigits_digits]
    simp [List.length_map, List.length_reverse]

theorem foldAcc_zeros (k : Nat) : ∀ a : Nat,
    foldAcc a (List.replicate k (digitChar 0)) = a * 10 ^ k := by
  induction k with
  | zero =>
    intro a
    simp [foldAcc]
  | succ k ih =>
    intro a
    rw [List.replicate_succ, foldAcc_cons]
    have h48 : (digitChar 0).toNat = 48 := by decide
    rw [h48, Nat.sub_self, Nat.add_zero, ih]
    ring

theorem natDigitsChars_len_le (m : Nat) (h : m < 10000) :
    (natDigitsChars m).length ≤ 4 := by
  by_cases h0 : m = 0
  · subst h0
    decide
  · rw [natDigitsChars, if_neg h0]
    simp only [List.length_map, List.length_reverse]
    rw [Nat.digits_len 10 m (by norm_num) h0]
    have hlt : m < 10 ^ 4 := by
      calc m < 10000 := h
      _ = 10 ^ 4 := by norm_num
    have := Nat.log_lt_of_lt_pow h0 hlt
    omega


theorem lexDigitsLoop_cons_none (c : Char) (rest : List Char) (pos f : Nat) (hd : Bool) :
    lexDigitsLoop (c :: rest) pos f hd none =
      (if 48 ≤ c.toNat ∧ c.toNat ≤ 57 then
        (match (some (none : Option Nat) : Option (Option Nat)) with
         | none => Except.error (ParseFixedDecimalError.TooMuchFractionalDigits PRECISION)
         | some dd2 =>
           match checked_mul 1 (c.toNat - 48) with
           | none => Except.error ParseFixedDecimalError.TooLarge
           | some digit =>
             match checked_mul f 10 with
             | none => Except.error ParseFixedDecimalError.TooLarge
             | some f10 =>
               match checked_add f10 digit with
               | none => Except.error ParseFixedDecimalError.TooLarge
               | some f2 => lexDigitsLoop rest (pos + 1) f2 true dd2)
      else if c = '.' then
        lexDigitsLoop rest (pos + 1) f hd (some 0)
      else Except.error (ParseFixedDecimalError.InvalidChar pos)) := rfl

theorem lexDigitsLoop_cons_some (c : Char) (rest : List Char) (pos f j : Nat) (hd : Bool) :
    lexDigitsLoop (c :: rest) pos f hd (some j) =
      (if 48 ≤ c.toNat ∧ c.toNat ≤ 57 then
        (match (if j = PRECISION then (none : Option (Option Nat))
                else some (some (j + 1))) with
         | none => Except.error (ParseFixedDecimalError.TooMuchFractionalDigits PRECISION)
         | some dd2 =>
           match checked_mul 1 (c.toNat - 48) with
           | none => Except.error ParseFixedDecimalError.TooLarge
           | some digit =>
             match checked_mul f 10 with
             | none => Except.error ParseFixedDecimalError.TooLarge
             | some f10 =>
               match checked_add f10 digit with
               | none => Except.error ParseFixedDecimalError.TooLarge
               | some f2 => lexDigitsLoop rest (pos + 1) f2 true dd2)
      else if c = '.' then
        Except.error (ParseFixedDecimalError.InvalidChar pos)
      else Except.error (ParseFixedDecimalError.InvalidChar pos)) := rfl

theorem lexLoop_dot (rest : List Char) (pos f : Nat) (hd : Bool) :
    lexDigitsLoop ('.' :: rest) pos f hd none =
      lexDigitsLoop rest (pos + 1) f hd (some 0) := rfl

theorem lexLoop_digits_none (ds : List Char) :
    ∀ (rest : List Char) (pos f : Nat) (hd : Bool),
    (∀ c ∈ ds, 48 ≤ c.toNat ∧ c.toNat ≤ 57) →
    foldAcc f ds ≤ U64_MAX →
    lexDigitsLoop (ds ++ rest) pos f hd none =
      lexDigitsLoop rest (pos + ds.length) (foldAcc f ds) (hd || !ds.isEmpty) none := by
  induction ds with
  | nil =>
    intro rest pos f hd _ _
    simp [foldAcc]
  | cons c ds ih =>
    intro rest pos f hd hds hbound
    have hc := hds c (List.mem_cons_self c ds)
    rw [foldAcc_cons] at hbound
    have hge := le_foldAcc ds (f * 10 + (c.toNat - 48))
    have h9 : (9 : Nat) ≤ U64_MAX := by decide
    have hone : checked_mul 1 (c.toNat - 48) = some (c.toNat - 48) := by
      have hle : c.toNat - 48 ≤ U64_MAX := by omega
      simp only [checked_mul, Nat.one_mul, if_pos hle]
    have hmul10 : checked_mul f 10 = some (f * 10) := by
      have hle : f * 10 ≤ U64_MAX := by omega
      simp only [checked_mul, if_pos hle]
    have hadd : checked_add (f * 10) (c.toNat - 48) = some (f * 10 + (c.toNat - 48)) :=
      checked_add_eq_some (by omega)
    have harith : pos + (c :: ds).length = (pos + 1) + ds.length := by
      simp only [List.length_cons]
      omega
    rw [harith, foldAcc_cons]
    simp only [List.isEmpty_cons, Bool.not_false, Bool.or_true]
    rw [List.cons_append, lexDigitsLoop_cons_none, if_pos hc]
    simp only [hone, hmul10, hadd]
    rw [ih rest (pos + 1) (f * 10 + (c.toNat - 48)) true
      (fun c2 h2 => hds c2 (List.mem_cons_of_mem c h2)) hbound]
    simp

theorem lexLoop_digits_some (ds : List Char) :
    ∀ (rest : List Char) (pos f j : Nat) (hd : Bool),
    (∀ c ∈ ds, 48 ≤ c.toNat ∧ c.toNat ≤ 57) →
    foldAcc f ds ≤ U64_MAX →
    j + ds.length ≤ PRECISION →
    lexDigitsLoop (ds ++ rest) pos f hd (some j) =
      lexDigitsLoop rest (pos + ds.length) (foldAcc f ds) (hd || !ds.isEmpty)
        (some (j + ds.length)) := by
  induction ds with
  | nil =>
    intro rest pos f j hd _ _ _
    simp [foldAcc]
  | cons c ds ih =>
    intro rest pos f j hd hds hbound hprec
    have hc := hds c (List.mem_cons_self c ds)
    rw [foldAcc_cons] at hbound
    have hge := le_foldAcc ds (f * 10 + (c.toNat - 48))
    have h9 : (9 : Nat) ≤ U64_MAX := by decide
    have hP : PRECISION = 4 := rfl
    have hlenc : (c :: ds).length = ds.length + 1 := List.length_cons c ds
    have hjne : ¬ (j = PRECISION) := by
      rw [hlenc] at hprec
      omega
    have hone : checked_mul 1 (c.toNat - 48) = some (c.toNat - 48) := by
      have hle : c.toNat - 48 ≤ U64_MAX := by omega
      simp only [checked_mul, Nat.one_mul, if_pos hle]
    have hmul10 : checked_mul f 10 = some (f * 10) := by
      have hle : f * 10 ≤ U64_MAX := by omega
      simp only [checked_mul, if_pos hle]
    have hadd : checked_add (f * 10) (c.toNat - 48) = some (f * 10 + (c.toNat - 48)) :=
      checked_add_eq_some (by omega)
    have harith : pos + (c :: ds).length = (pos + 1) + ds.length := by
      rw [hlenc]
      omega
    have harith2 : j + (c :: ds).length = (j + 1) + ds.length := by
      rw [hlenc]
      omega
    have hprec2 : (j + 1) + ds.length ≤ PRECISION := by
      rw [hlenc] at hprec
      omega
    rw [harith, harith2, foldAcc_cons]
    simp only [List.isEmpty_cons, Bool.not_false, Bool.or_true]
    rw [List.cons_append, lexDigitsLoop_cons_some, if_pos hc, if_neg hjne]
    simp only [hone, hmul10, hadd]
    rw [ih rest (pos + 1) (f * 10 + (c.toNat - 48)) (j + 1) true
      (fun c2 h2 => hds c2 (List.mem_cons_of_mem c h2)) hbound hprec2]
    simp

theorem lexDigitsLoop_nil (pos f : Nat) (hd : Bool) (dd : Option Nat) :
    lexDigitsLoop [] pos f hd dd = Except.ok (f, hd, dd) := rfl

/-- C9: for every representable 4-fractional-digit unsigned fixed-decimal
value `x` (a `u64` fraction count), parsing the string produced by
formatting `x` yields exactly `x`; the formatted character list is an
integral part followed by a literal `.` and exactly `PRECISION = 4`
zero-padded digits, and the integral part is non-empty, all digits, equal to
`"0"` for integral value 0 and with no leading zero otherwise. -/
theorem c9_format_parse_roundtrip (x : Nat) (hx : x ≤ U64_MAX) :
    fdParse (fdFormat x) = Except.ok x ∧
    (∃ ip fp : List Char,
      fdFormat x = ip ++ '.' :: fp ∧
      fp.length = PRECISION ∧
      (∀ c ∈ fp, 48 ≤ c.toNat ∧ c.toNat ≤ 57) ∧
      ip ≠ [] ∧
      (∀ c ∈ ip, 48 ≤ c.toNat ∧ c.toNat ≤ 57) ∧
      (x / 10000 = 0 → ip = ['0']) ∧
      (x / 10000 ≠ 0 → ip.head? ≠ some '0')) := by
  have hP : PRECISION = 4 := rfl
  have hm : x % 10000 < 10000 := Nat.mod_lt _ (by norm_num)
  have hL4 : (natDigitsChars (x % 10000)).length ≤ 4 := natDigitsChars_len_le _ hm
  have hFlen : (padZerosLeft (natDigitsChars (x % 10000)) PRECISION).length = PRECISION := by
    simp only [padZerosLeft, List.length_append, List.length_replicate]
    omega
  have hFdig : ∀ c ∈ padZerosLeft (natDigitsChars (x % 10000)) PRECISION,
      48 ≤ c.toNat ∧ c.toNat ≤ 57 := by
    intro c hc
    simp only [padZerosLeft, List.mem_append] at hc
    rcases hc with hc | hc
    · have := List.eq_of_mem_replicate hc
      rw [this]
      decide
    · exact natDigitsChars_all_digits _ c hc
  have hFfold : foldAcc (x / 10000) (padZerosLeft (natDigitsChars (x % 10000)) PRECISION)
      = x := by
    rw [padZerosLeft, foldAcc_append, foldAcc_zeros, foldAcc_natDigitsChars]
    have hexp : (PRECISION - (natDigitsChars (x % 10000)).length) +
        (natDigitsChars (x % 10000)).length = 4 := by
      omega
    rw [mul_assoc, ← pow_add, hexp]
    have h4 : (10 : Nat) ^ 4 = 10000 := by norm_num
    rw [h4]
    omega
  have hIfold : foldAcc 0 (natDigitsChars (x / 10000)) = x / 10000 := by
    rw [foldAcc_natDigitsChars]
    simp
  have hIbound : foldAcc 0 (natDigitsChars (x / 10000)) ≤ U64_MAX := by
    rw [hIfold]
    have := Nat.div_le_self x 10000
    omega
  have hFbound : foldAcc (x / 10000)
      (padZerosLeft (natDigitsChars (x % 10000)) PRECISION) ≤ U64_MAX := by
    rw [hFfold]
    exact hx
  have hprec0 : (0 : Nat) +
      (padZerosLeft (natDigitsChars (x % 10000)) PRECISION).length ≤ PRECISION := by
    rw [hFlen]
    omega
  have hloop : lexDigitsLoop
      (natDigitsChars (x / 10000) ++ '.' ::
        padZerosLeft (natDigitsChars (x % 10000)) PRECISION) 0 0 false none =
      Except.ok (x, true, some 4) := by
    rw [lexLoop_digits_none (natDigitsChars (x / 10000))
      ('.' :: padZerosLeft (natDigitsChars (x % 10000)) PRECISION) 0 0 false
      (natDigitsChars_all_digits _) hIbound]
    rw [hIfold]
    simp only [natDigitsChars_isEmpty, Bool.not_false, Bool.or_true]
    rw [lexLoop_dot]
    have hsome := lexLoop_digits_some
      (padZerosLeft (natDigitsChars (x % 10000)) PRECISION) []
      (0 + (natDigitsChars (x / 10000)).length + 1) (x / 10000) 0 true
      hFdig hFbound hprec0
    rw [List.append_nil] at hsome
    rw [hsome, hFfold, hFlen, lexDigitsLoop_nil]
    simp [PRECISION]
  have hparse : fdParse (fdFormat x) = Except.ok x := by
    have h1 : fdFormat x = natDigitsChars (x / 10000) ++ '.' ::
        padZerosLeft (natDigitsChars (x % 10000)) PRECISION := rfl
    rw [h1]
    show lex_digits (natDigitsChars (x / 10000) ++ '.' ::
      padZerosLeft (natDigitsChars (x % 10000)) PRECISION) = Except.ok x
    rw [lex_digits, hloop]
    have hpad : lexPad x 4 = Except.ok x := by
      rw [lexPad]
      rw [if_neg (by decide : ¬ (4 < PRECISION))]
    simp only []
    rw [if_neg (by decide : ¬ (true = false))]
    exact hpad
  refine ⟨hparse, natDigitsChars (x / 10000),
    padZerosLeft (natDigitsChars (x % 10000)) PRECISION, rfl, hFlen, hFdig,
    natDigitsChars_ne_nil _, natDigitsChars_all_digits _, ?_, ?_⟩
  · intro h0
    rw [natDigitsChars, if_pos h0]
    decide
  · intro h0
    rw [natDigitsChars, if_neg h0]
    have hnil : Nat.digits 10 (x / 10000) ≠ [] := Nat.digits_ne_nil_iff_ne_zero.mpr h0
    rw [List.head?_map, List.head?_reverse, List.getLast?_eq_getLast_of_ne_nil hnil]
    intro heq
    have heq2 : digitChar ((Nat.digits 10 (x / 10000)).getLast hnil) = '0' := by
      injection heq
    have hmem : (Nat.digits 10 (x / 10000)).getLast hnil ∈ Nat.digits 10 (x / 10000) :=
      List.getLast_mem hnil
    have hlt : (Nat.digits 10 (x / 10000)).getLast hnil < 10 :=
      Nat.digits_lt_base (by norm_num) hmem
    have hne0 := Nat.getLast_digit_ne_zero 10 h0
    have h48 : (digitChar ((Nat.digits 10 (x / 10000)).getLast hnil)).toNat = 48 := by
      rw [heq2]
      decide
    rw [digitChar_toNat hlt] at h48
    exact hne0 (by omega)

/-- C9 witness: the round trip and format shape at `x = 123456`
(`"12.3456"`). -/
theorem c9_format_parse_roundtrip_witness :
    123456 ≤ U64_MAX ∧ fdParse (fdFormat 123456) = Except.ok 123456 :=
  ⟨by decide, (c9_format_parse_roundtrip 123456 (by decide)).1⟩

end Txdemo
